import Mathlib

/-!
Verification of the constant-folding graph-rewriting pass
(`onnxruntime/core/optimizer/constant_folding.{h,cc}`).

The data model follows the spec's own modelling notes (§3, §9): node storage
is a sparse arena of optional `Node` records indexed by a stable integer
handle; a graph holds that arena, a list of named constant initializers, and
the list of graph-level output names.  Nodes may own nested subgraphs
(control-flow bodies), so `Node` and `Graph` form a mutual inductive.

The kernel registry / execution frame is an external collaborator: it is
embedded as a parameter `K : KernelSem` mapping a node and the graph's
initializer list to the result of running the node's kernel (the `Status`
returned by `Compute` together with the values fetched from the frame).

Mutation is modelled by explicit state passing: `ApplyImpl` returns the graph
as mutated so far, the `modified` delta, and an optional error.  An error
result carries the partially mutated graph, mirroring the in-place C++
mutation that an `ORT_ENFORCE` exception leaves behind.
-/

namespace CF

/-- An output (or input) definition of a node: `NodeArg` with a name and the
declared tensor element type (`TypeAsProto()->tensor_type().elem_type()`). -/
structure NodeArg where
  name : String
  elemType : Nat
deriving DecidableEq, Repr

/-- A persisted constant tensor (`ONNX_NAMESPACE::TensorProto`): name,
dimensions, element data type, and raw byte payload. -/
structure TensorProto where
  name : String
  dims : List Nat
  dataType : Nat
  rawData : List Nat
deriving DecidableEq, Repr

/-- A runtime tensor (`onnxruntime::Tensor`): element size in bytes
(`DataType()->Size()`), shape dims (`Shape().GetDims()`), and the underlying
byte buffer (`DataRaw`). -/
structure RTensor where
  elemTypeSize : Nat
  dims : List Nat
  bytes : List Nat
deriving DecidableEq, Repr

/-- A value fetched from the execution frame (`OrtValue`): either a tensor or
some other (non-tensor) runtime value, for which `IsTensor()` is false. -/
inductive OrtValue where
  | tensor (t : RTensor)
  | other
deriving DecidableEq, Repr

mutual
/-- A graph node: operator type, execution provider type, ordered input edge
names, ordered output definitions (`OutputDefs`), and the nested subgraphs the
node owns (control-flow bodies). -/
inductive Node : Type where
  | mk (opType : String) (execProvider : String) (inputDefs : List String)
      (outputDefs : List NodeArg) (subgraphs : List Graph) : Node

/-- A graph: sparse arena of optional nodes indexed by `NodeIndex` (a removed
node leaves a `none` slot, per spec §9), the named constant initializers, and
the graph-level output names. -/
inductive Graph : Type where
  | mk (nodes : List (Option Node)) (initializers : List TensorProto)
      (graphOutputs : List String) : Graph
end

def Node.opType : Node → String
  | .mk t _ _ _ _ => t

def Node.execProvider : Node → String
  | .mk _ e _ _ _ => e

def Node.inputDefs : Node → List String
  | .mk _ _ ins _ _ => ins

def Node.outputDefs : Node → List NodeArg
  | .mk _ _ _ outs _ => outs

def Node.subgraphs : Node → List Graph
  | .mk _ _ _ _ sgs => sgs

def Graph.nodes : Graph → List (Option Node)
  | .mk ns _ _ => ns

def Graph.initializers : Graph → List TensorProto
  | .mk _ inits _ => inits

def Graph.graphOutputs : Graph → List String
  | .mk _ _ outs => outs

@[simp] theorem Node.opType_mk (t e ins outs sgs) :
    (Node.mk t e ins outs sgs).opType = t := rfl

@[simp] theorem Node.execProvider_mk (t e ins outs sgs) :
    (Node.mk t e ins outs sgs).execProvider = e := rfl

@[simp] theorem Node.inputDefs_mk (t e ins outs sgs) :
    (Node.mk t e ins outs sgs).inputDefs = ins := rfl

@[simp] theorem Node.outputDefs_mk (t e ins outs sgs) :
    (Node.mk t e ins outs sgs).outputDefs = outs := rfl

@[simp] theorem Node.subgraphs_mk (t e ins outs sgs) :
    (Node.mk t e ins outs sgs).subgraphs = sgs := rfl

@[simp] theorem Graph.nodes_mk (ns inits outs) :
    (Graph.mk ns inits outs).nodes = ns := rfl

@[simp] theorem Graph.initializers_mk (ns inits outs) :
    (Graph.mk ns inits outs).initializers = inits := rfl

@[simp] theorem Graph.graphOutputs_mk (ns inits outs) :
    (Graph.mk ns inits outs).graphOutputs = outs := rfl

mutual
/-- Structural size of a node (counts node records only, not tensor data);
used as fuel for the subgraph recursion. -/
def Node.ssize : Node → Nat
  | .mk _ _ _ _ sgs => 1 + graphsSize sgs

/-- Structural size of a list of subgraphs. -/
def graphsSize : List Graph → Nat
  | [] => 0
  | g :: rest => Graph.ssize g + graphsSize rest

/-- Structural size of a graph. -/
def Graph.ssize : Graph → Nat
  | .mk ns _ _ => 1 + slotsSize ns

/-- Structural size of a node arena. -/
def slotsSize : List (Option Node) → Nat
  | [] => 0
  | none :: rest => 1 + slotsSize rest
  | some n :: rest => 1 + Node.ssize n + slotsSize rest
end

theorem Node.etaNode (n : Node) :
    Node.mk n.opType n.execProvider n.inputDefs n.outputDefs n.subgraphs = n := by
  cases n; rfl

theorem Graph.etaGraph (g : Graph) :
    Graph.mk g.nodes g.initializers g.graphOutputs = g := by
  cases g; rfl

/-- The output edge names of a node. -/
def Node.outputNames (n : Node) : List String := n.outputDefs.map NodeArg.name

/-- `Node::ContainsSubgraph`. -/
def Node.containsSubgraph (n : Node) : Bool := !n.subgraphs.isEmpty

/-- `Graph::GetNode(i)`: a lookup miss (out of range or removed slot) is the
normal empty result, not an error. -/
def Graph.getNode (g : Graph) (i : Nat) : Option Node :=
  match g.nodes.get? i with
  | some s => s
  | none => none

/-- Overwrite arena slot `i` with node `n` (in-place mutation of the node,
e.g. after recursing into its subgraphs). -/
def Graph.setNode (g : Graph) (i : Nat) (n : Node) : Graph :=
  Graph.mk (g.nodes.set i (some n)) g.initializers g.graphOutputs

/-- `Graph::RemoveNode(i)`: the slot becomes empty; indices of the remaining
nodes are unchanged. -/
def Graph.removeNode (g : Graph) (i : Nat) : Graph :=
  Graph.mk (g.nodes.set i none) g.initializers g.graphOutputs

/-- Whether the graph holds a constant initializer with the given name. -/
def Graph.hasInitializer (g : Graph) (x : String) : Bool :=
  g.initializers.any (fun t => t.name = x)

/-- Insert `t` into `l`, replacing an existing entry of the same name. -/
def replaceInit : List TensorProto → TensorProto → List TensorProto
  | [], t => [t]
  | u :: rest, t => if u.name = t.name then t :: rest else u :: replaceInit rest t

/-- Modelled from the spec: `Graph::AddInitializedTensor` is external to
`src/`; per §4.4 step 1 the initializer is inserted into the graph's
initializer set, overwriting on name collision. -/
def Graph.addInitializedTensor (g : Graph) (t : TensorProto) : Graph :=
  Graph.mk g.nodes (replaceInit g.initializers t) g.graphOutputs

/-- Modelled from the spec: `graph_utils::IsSupportedProvider` is external to
`src/`; per §4.1 the node's operator implementation must be supported by the
caller-supplied allow-list of compatible execution targets (an empty
allow-list restricts nothing). -/
def isSupportedProvider (compatible : List String) (n : Node) : Bool :=
  compatible.isEmpty || compatible.contains n.execProvider

/-- The fixed member `excluded_op_types_` of `ConstantFolding`
(constant_folding.h): operator types never folded. -/
def excludedOpTypesDefault : List String :=
  ["RandomUniform", "RandomNormal", "RandomUniformLike", "RandomNormalLike", "Multinomial"]

/-- Modelled from the spec: `Graph::IsNodeOutputsInGraphOutputs` is external
to `src/`; per §4.1 it asks whether any output edge of the node is also a
graph-level output. -/
def isNodeOutputsInGraphOutputs (g : Graph) (n : Node) : Bool :=
  n.outputDefs.any (fun a => g.graphOutputs.contains a.name)

/-- Modelled from the spec: `graph_utils::AllNodeInputsAreConstant` is
external to `src/`; per §4.1 every input edge must resolve to a constant
initializer of the graph. -/
def allNodeInputsAreConstant (g : Graph) (n : Node) : Bool :=
  n.inputDefs.all (fun x => g.hasInitializer x)

/-- The disjunction of skip conditions from `ConstantFolding::ApplyImpl`
(constant_folding.cc lines 27-37), in source order: the node is skipped
(`continue`) when any of them holds. -/
def shouldSkip (compatible : List String) (g : Graph) (n : Node) : Bool :=
  !isSupportedProvider compatible n ||
  excludedOpTypesDefault.contains n.opType ||
  n.containsSubgraph ||
  isNodeOutputsInGraphOutputs g n ||
  !allNodeInputsAreConstant g n

/-- Eligibility for folding: the negation of the skip condition. -/
def canFold (compatible : List String) (g : Graph) (n : Node) : Bool :=
  !shouldSkip compatible g n

/-- Internal invariant violations raised by the pass (`ORT_ENFORCE`), plus
the out-of-fuel marker of the fuel-indexed embedding of the subgraph
recursion (never reached when the fuel bounds the graph's structural size). -/
inductive FoldError where
  | fetchCountMismatch
  | nonTensorValue
  | outOfFuel
deriving DecidableEq, Repr

/-- Result of running one kernel via the execution frame: the `Status`
returned by `OpKernel::Compute` (`none` = OK) and the values fetched from the
frame (`frame.GetOutputs(fetches)`). -/
structure KernelResult where
  computeStatus : Option String
  fetches : List OrtValue

/-- External kernel registry / execution frame semantics: given the node and
the graph's full initializer list (`graph.GetAllInitializedTensors()`),
produce the kernel run result. -/
def KernelSem : Type := Node → List TensorProto → KernelResult

/-- Result of a (sub)pass over one graph: the graph as mutated so far, the
`modified` delta, and the first propagated error, if any. -/
structure PassResult where
  graph : Graph
  modified : Bool
  error : Option FoldError

/-- Result of the recursion into one node's subgraphs. -/
structure NodeRecResult where
  node : Node
  modified : Bool
  error : Option FoldError

/-- `ConstantFolding::BuildTensorProtoForInitializer` (constant_folding.cc
lines 86-103): `ORT_ENFORCE(ort_value.IsTensor())` (modelled as `none`), then
name from the output `NodeArg`, dims from the computed tensor's shape, element
type from the declared type of the output `NodeArg` (not re-derived), and a
raw byte copy of `DataType()->Size() * Shape().Size()` bytes of the buffer. -/
def buildTensorProtoForInitializer (v : OrtValue) (arg : NodeArg) : Option TensorProto :=
  match v with
  | .other => none
  | .tensor t =>
      some { name := arg.name, dims := t.dims, dataType := arg.elemType,
             rawData := t.bytes.take (t.elemTypeSize * t.dims.prod) }

/-- The per-output loop of `ApplyImpl` (lines 62-75): for each fetched value
and the corresponding output def, build the `TensorProto` (raising on a
non-tensor value) and add it to the graph as an initializer. -/
def materializeOutputs (g : Graph) : List (NodeArg × OrtValue) → Graph × Option FoldError
  | [] => (g, none)
  | (arg, v) :: rest =>
      match buildTensorProtoForInitializer v arg with
      | none => (g, some FoldError.nonTensorValue)
      | some tp => materializeOutputs (g.addInitializedTensor tp) rest

/-- Modelled from the spec: `GraphTransformer::Recurse` is external to `src/`;
per §4.1/§7 the pass descends into every nested subgraph the node owns,
propagating the first failure immediately.  `F` is the pass applied to one
subgraph. -/
def recurseGraphsWith (F : Graph → PassResult) : List Graph → List Graph × Bool × Option FoldError
  | [] => ([], false, none)
  | sg :: rest =>
      if (F sg).error.isSome then
        ((F sg).graph :: rest, (F sg).modified, (F sg).error)
      else
        ((F sg).graph :: (recurseGraphsWith F rest).1,
         (F sg).modified || (recurseGraphsWith F rest).2.1,
         (recurseGraphsWith F rest).2.2)

/-- Recursion into one node's subgraphs, rebuilding the node with the mutated
subgraph list. -/
def recurseNodeWith (F : Graph → PassResult) (n : Node) : NodeRecResult :=
  ⟨Node.mk n.opType n.execProvider n.inputDefs n.outputDefs (recurseGraphsWith F n.subgraphs).1,
   (recurseGraphsWith F n.subgraphs).2.1, (recurseGraphsWith F n.subgraphs).2.2⟩

/-- Dispatch on the outcome of the materialization loop: on an error it is
propagated (the node is not removed); on success the node is removed and the
pass records `modified = true`. -/
def foldOutcome (i : Nat) (recModified : Bool) : Graph × Option FoldError → PassResult
  | (g'', some e) => ⟨g'', recModified, some e⟩
  | (g'', none) => ⟨g''.removeNode i, true, none⟩

/-- The eligible-node path of the loop body (constant_folding.cc lines 39-82):
run the kernel through the execution frame (its `Status` is discarded by the
source), `ORT_ENFORCE` that the fetch count equals the declared output count,
materialize every output as an initializer, then remove the node's output
edges and the node itself.  `g'` is the graph after the subgraph recursion,
`n'` the recursed node, `recModified` the `modified` delta of the recursion. -/
def foldEligibleNode (K : KernelSem) (g' : Graph) (i : Nat) (n' : Node)
    (recModified : Bool) : PassResult :=
  if (K n' g'.initializers).fetches.length = n'.outputDefs.length then
    foldOutcome i recModified
      (materializeOutputs g' (n'.outputDefs.zip (K n' g'.initializers).fetches))
  else ⟨g', recModified, some FoldError.fetchCountMismatch⟩

/-- The loop body after the subgraph recursion: propagate a recursion error
(`ORT_RETURN_IF_ERROR`), otherwise apply the skip-condition check and, when
eligible, fold the node.  The recursed node is written back to its arena slot
(the C++ mutates the node in place through the graph's pointer). -/
def afterRecurse (compatible : List String) (K : KernelSem) (g : Graph) (i : Nat)
    (r : NodeRecResult) : PassResult :=
  match r.error with
  | some e => ⟨g.setNode i r.node, r.modified, some e⟩
  | none =>
      if shouldSkip compatible (g.setNode i r.node) r.node then
        ⟨g.setNode i r.node, r.modified, none⟩
      else foldEligibleNode K (g.setNode i r.node) i r.node r.modified

/-- The body of the `for (NodeIndex i : order)` loop of
`ConstantFolding::ApplyImpl` for one node index: null check, unconditional
recursion into subgraphs (with `ORT_RETURN_IF_ERROR`), the skip-condition
check, kernel execution (whose `Status` the source discards), the
`ORT_ENFORCE` on the fetch count, materialization of every output, and
finally removal of the node's output edges and of the node itself.
`RemoveNodeOutputEdges` needs no model state: edges are represented by names
(spec §4.4 step 2, consumers need no edits because names are unchanged). -/
def processNodeWith (F : Graph → PassResult) (compatible : List String) (K : KernelSem)
    (g : Graph) (i : Nat) : PassResult :=
  match g.getNode i with
  | none => ⟨g, false, none⟩
  | some n => afterRecurse compatible K g i (recurseNodeWith F n)

/-- The traversal loop of `ApplyImpl` over a snapshot of the topological
order, accumulating the `modified` flag and aborting on the first error. -/
def applyLoopWith (F : Graph → PassResult) (compatible : List String) (K : KernelSem) :
    List Nat → Graph → Bool → PassResult
  | [], g, m => ⟨g, m, none⟩
  | i :: rest, g, m =>
      if (processNodeWith F compatible K g i).error.isSome then
        ⟨(processNodeWith F compatible K g i).graph,
         m || (processNodeWith F compatible K g i).modified,
         (processNodeWith F compatible K g i).error⟩
      else
        applyLoopWith F compatible K rest (processNodeWith F compatible K g i).graph
          (m || (processNodeWith F compatible K g i).modified)

/-- Fuel-indexed `ConstantFolding::ApplyImpl`: one fuel unit per subgraph
nesting level.  The node order is the external
`GraphViewer::GetNodesInTopologicalOrder`, modelled from the spec as the
arena index order over a snapshot (§2, §9); theorems that depend on
topological ordering assume the arena respects it. -/
def applyImplF : Nat → List String → KernelSem → Graph → PassResult
  | 0, _, _, g => ⟨g, false, some FoldError.outOfFuel⟩
  | fuel + 1, compatible, K, g =>
      applyLoopWith (applyImplF fuel compatible K) compatible K
        (List.range g.nodes.length) g false

/-- The `ConstantFolding` transformer object: the constructor of
constant_folding.h takes the compatible execution providers (forwarded to the
`GraphTransformer` base) and the `excluded_initializers_` member. -/
structure ConstantFolding where
  compatibleExecutionProviders : List String
  excludedInitializers : List String

/-- The operator exclusion set the transformer uses: the fixed const member
`excluded_op_types_`, identical for every constructed instance. -/
def ConstantFolding.excludedOpTypes (_cf : ConstantFolding) : List String :=
  excludedOpTypesDefault

/-- `ConstantFolding::ApplyImpl` on a graph, with `modified` starting false
(as in `GraphTransformer::Apply`).  `g.ssize` strictly bounds the structural
size of every nested subgraph, so the fuel never runs out. -/
def ConstantFolding.apply (cf : ConstantFolding) (K : KernelSem) (g : Graph) : PassResult :=
  applyImplF g.ssize cf.compatibleExecutionProviders K g

/-- `IsTensor()` on a fetched value. -/
def OrtValue.isTensor : OrtValue → Bool
  | .tensor _ => true
  | .other => false

/-- The four skip conditions that do not depend on the initializer set: they
are determined by the node itself and the graph-level output names. -/
def stableSkip (compatible : List String) (gouts : List String) (n : Node) : Bool :=
  !isSupportedProvider compatible n ||
  excludedOpTypesDefault.contains n.opType ||
  n.containsSubgraph ||
  n.outputDefs.any (fun a => gouts.contains a.name)

/-- The graph's node arena is topologically sorted: a producer's index is
smaller than the index of any consumer of one of its outputs.  This models
the guarantee of the external `GraphViewer::GetNodesInTopologicalOrder`
(spec §3, §6: "a node ordering where every node appears after all nodes
producing its inputs"), under the embedding's identification of the visit
order with the arena index order. -/
def Topo (g : Graph) : Prop :=
  ∀ i j : Nat, ∀ n m : Node, g.getNode i = some n → g.getNode j = some m →
    (∃ x, x ∈ m.inputDefs ∧ x ∈ n.outputNames) → i < j

/-- `Topo`, recursively for every nested subgraph. -/
inductive TopoRec : Graph → Prop where
  | intro (g : Graph) : Topo g →
      (∀ i n sg, g.getNode i = some n → sg ∈ n.subgraphs → TopoRec sg) →
      TopoRec g

/-- A graph on which the pass is a no-op: every remaining node fails the
skip check and all nested subgraphs are recursively in the same state. -/
inductive Processed (compatible : List String) : Graph → Prop where
  | intro (g : Graph) :
      (∀ i n, g.getNode i = some n → shouldSkip compatible g n = true) →
      (∀ i n sg, g.getNode i = some n → sg ∈ n.subgraphs → Processed compatible sg) →
      Processed compatible g

theorem shouldSkip_eq (compatible : List String) (g : Graph) (n : Node) :
    shouldSkip compatible g n =
      (stableSkip compatible g.graphOutputs n || !allNodeInputsAreConstant g n) := by
  simp [shouldSkip, stableSkip, isNodeOutputsInGraphOutputs, Bool.or_assoc]

theorem Graph.getNode_eq_none (g : Graph) {i : Nat} (h : g.nodes.length ≤ i) :
    g.getNode i = none := by
  simp [Graph.getNode, List.getElem?_eq_none h]

theorem Graph.lt_length_of_getNode {g : Graph} {i : Nat} {n : Node}
    (h : g.getNode i = some n) : i < g.nodes.length := by
  by_contra hlt
  rw [Graph.getNode_eq_none g (Nat.le_of_not_lt hlt)] at h
  exact Option.noConfusion h

theorem Graph.getNode_some_mem {g : Graph} {i : Nat} {n : Node}
    (h : g.getNode i = some n) : some n ∈ g.nodes := by
  unfold Graph.getNode at h
  cases hg : g.nodes.get? i with
  | none => rw [hg] at h; exact Option.noConfusion h
  | some s => rw [hg] at h; subst h; exact List.get?_mem hg

@[simp] theorem Graph.nodes_setNode (g : Graph) (i : Nat) (n : Node) :
    (g.setNode i n).nodes = g.nodes.set i (some n) := rfl

@[simp] theorem Graph.initializers_setNode (g : Graph) (i : Nat) (n : Node) :
    (g.setNode i n).initializers = g.initializers := rfl

@[simp] theorem Graph.graphOutputs_setNode (g : Graph) (i : Nat) (n : Node) :
    (g.setNode i n).graphOutputs = g.graphOutputs := rfl

@[simp] theorem Graph.nodes_removeNode (g : Graph) (i : Nat) :
    (g.removeNode i).nodes = g.nodes.set i none := rfl

@[simp] theorem Graph.initializers_removeNode (g : Graph) (i : Nat) :
    (g.removeNode i).initializers = g.initializers := rfl

@[simp] theorem Graph.graphOutputs_removeNode (g : Graph) (i : Nat) :
    (g.removeNode i).graphOutputs = g.graphOutputs := rfl

@[simp] theorem Graph.nodes_addInitializedTensor (g : Graph) (t : TensorProto) :
    (g.addInitializedTensor t).nodes = g.nodes := rfl

@[simp] theorem Graph.graphOutputs_addInitializedTensor (g : Graph) (t : TensorProto) :
    (g.addInitializedTensor t).graphOutputs = g.graphOutputs := rfl

@[simp] theorem Graph.getNode_addInitializedTensor (g : Graph) (t : TensorProto) (i : Nat) :
    (g.addInitializedTensor t).getNode i = g.getNode i := rfl

theorem Graph.getNode_setNode_self {g : Graph} {i : Nat} {m : Node} (n : Node)
    (h : g.getNode i = some m) : (g.setNode i n).getNode i = some n := by
  have hlt := Graph.lt_length_of_getNode h
  simp [Graph.getNode, List.getElem?_set_eq_of_lt _ hlt]

theorem Graph.getNode_setNode_ne (g : Graph) {i j : Nat} (n : Node) (h : j ≠ i) :
    (g.setNode i n).getNode j = g.getNode j := by
  simp [Graph.getNode, List.getElem?_set_ne (Ne.symm h)]

theorem Graph.getNode_removeNode_self (g : Graph) (i : Nat) :
    (g.removeNode i).getNode i = none := by
  by_cases hlt : i < g.nodes.length
  · simp [Graph.getNode, List.getElem?_set_eq_of_lt _ hlt]
  · exact Graph.getNode_eq_none _ (by simpa using Nat.le_of_not_lt hlt)

theorem Graph.getNode_removeNode_ne (g : Graph) {i j : Nat} (h : j ≠ i) :
    (g.removeNode i).getNode j = g.getNode j := by
  simp [Graph.getNode, List.getElem?_set_ne (Ne.symm h)]

theorem listSetSame {α : Type} : ∀ (l : List α) (i : Nat) (a : α),
    l.get? i = some a → l.set i a = l
  | [], i, a, h => by simp at h
  | b :: rest, 0, a, h => by simp at h; simp [h]
  | b :: rest, i + 1, a, h => by
      simp only [List.get?] at h
      simp [List.set, listSetSame rest i a h]

theorem Graph.setNode_same {g : Graph} {i : Nat} {n : Node}
    (h : g.getNode i = some n) : g.setNode i n = g := by
  unfold Graph.getNode at h
  cases hg : g.nodes.get? i with
  | none => rw [hg] at h; exact Option.noConfusion h
  | some s =>
      rw [hg] at h; subst h
      have := listSetSame g.nodes i _ hg
      calc g.setNode i n = Graph.mk (g.nodes.set i (some n)) g.initializers g.graphOutputs := rfl
        _ = Graph.mk g.nodes g.initializers g.graphOutputs := by rw [this]
        _ = g := Graph.etaGraph g

theorem hasInit_replaceInit (l : List TensorProto) (t : TensorProto) (x : String) :
    ((replaceInit l t).any (fun u => u.name = x) = true) ↔
      (l.any (fun u => u.name = x) = true ∨ t.name = x) := by
  induction l with
  | nil => simp [replaceInit]
  | cons u rest ih =>
      by_cases hu : u.name = t.name
      · simp only [replaceInit, if_pos hu, List.any_cons]
        constructor
        · rintro h
          rcases Bool.or_eq_true_iff.mp h with h | h
          · exact Or.inr (by simpa using h)
          · exact Or.inl (by simp [h])
        · rintro (h | h)
          · rcases Bool.or_eq_true_iff.mp h with h | h
            · simp only [decide_eq_true_eq] at h
              exact Bool.or_eq_true_iff.mpr (Or.inl (by simp [← hu, h]))
            · exact Bool.or_eq_true_iff.mpr (Or.inr h)
          · exact Bool.or_eq_true_iff.mpr (Or.inl (by simp [h]))
      · simp only [replaceInit, if_neg hu, List.any_cons]
        constructor
        · rintro h
          rcases Bool.or_eq_true_iff.mp h with h | h
          · exact Or.inl (Bool.or_eq_true_iff.mpr (Or.inl h))
          · rcases (ih.mp h) with h | h
            · exact Or.inl (Bool.or_eq_true_iff.mpr (Or.inr h))
            · exact Or.inr h
        · rintro (h | h)
          · rcases Bool.or_eq_true_iff.mp h with h | h
            · exact Bool.or_eq_true_iff.mpr (Or.inl h)
            · exact Bool.or_eq_true_iff.mpr (Or.inr (ih.mpr (Or.inl h)))
          · exact Bool.or_eq_true_iff.mpr (Or.inr (ih.mpr (Or.inr h)))

theorem Graph.hasInitializer_addInitializedTensor (g : Graph) (t : TensorProto) (x : String) :
    ((g.addInitializedTensor t).hasInitializer x = true) ↔
      (g.hasInitializer x = true ∨ t.name = x) :=
  hasInit_replaceInit g.initializers t x

@[simp] theorem Graph.hasInitializer_setNode (g : Graph) (i : Nat) (n : Node) (x : String) :
    (g.setNode i n).hasInitializer x = g.hasInitializer x := rfl

@[simp] theorem Graph.hasInitializer_removeNode (g : Graph) (i : Nat) (x : String) :
    (g.removeNode i).hasInitializer x = g.hasInitializer x := rfl

@[simp] theorem buildTensorProtoForInitializer_other (arg : NodeArg) :
    buildTensorProtoForInitializer OrtValue.other arg = none := rfl

@[simp] theorem buildTensorProtoForInitializer_tensor (t : RTensor) (arg : NodeArg) :
    buildTensorProtoForInitializer (OrtValue.tensor t) arg =
      some ⟨arg.name, t.dims, arg.elemType, t.bytes.take (t.elemTypeSize * t.dims.prod)⟩ := rfl

theorem buildTensorProtoForInitializer_name {v : OrtValue} {arg : NodeArg} {tp : TensorProto}
    (h : buildTensorProtoForInitializer v arg = some tp) : tp.name = arg.name := by
  cases v with
  | other => exact Option.noConfusion h
  | tensor t => rw [buildTensorProtoForInitializer_tensor] at h; cases h; rfl

theorem materializeOutputs_nodes :
    ∀ (ps : List (NodeArg × OrtValue)) (g : Graph),
      (materializeOutputs g ps).1.nodes = g.nodes
  | [], g => rfl
  | (arg, v) :: rest, g => by
      unfold materializeOutputs
      cases hb : buildTensorProtoForInitializer v arg with
      | none => rfl
      | some tp => simp [materializeOutputs_nodes rest]

theorem materializeOutputs_graphOutputs :
    ∀ (ps : List (NodeArg × OrtValue)) (g : Graph),
      (materializeOutputs g ps).1.graphOutputs = g.graphOutputs
  | [], g => rfl
  | (arg, v) :: rest, g => by
      unfold materializeOutputs
      cases hb : buildTensorProtoForInitializer v arg with
      | none => rfl
      | some tp => simp [materializeOutputs_graphOutputs rest]

theorem materializeOutputs_error_none :
    ∀ (ps : List (NodeArg × OrtValue)) (g : Graph),
      (∀ p ∈ ps, OrtValue.isTensor p.2 = true) → (materializeOutputs g ps).2 = none
  | [], g, _ => rfl
  | (arg, v) :: rest, g, h => by
      unfold materializeOutputs
      cases v with
      | other => exact absurd (h (arg, .other) (List.mem_cons_self _ _)) (by simp [OrtValue.isTensor])
      | tensor t =>
          rw [buildTensorProtoForInitializer_tensor]
          exact materializeOutputs_error_none rest _ (fun p hp => h p (List.mem_cons_of_mem _ hp))

theorem materializeOutputs_hasInit_mono :
    ∀ (ps : List (NodeArg × OrtValue)) (g : Graph) (x : String),
      g.hasInitializer x = true → (materializeOutputs g ps).1.hasInitializer x = true
  | [], g, x, h => h
  | (arg, v) :: rest, g, x, h => by
      unfold materializeOutputs
      cases hb : buildTensorProtoForInitializer v arg with
      | none => exact h
      | some tp =>
          exact materializeOutputs_hasInit_mono rest _ x
            ((Graph.hasInitializer_addInitializedTensor g tp x).mpr (Or.inl h))

theorem materializeOutputs_hasInit_of :
    ∀ (ps : List (NodeArg × OrtValue)) (g : Graph) (x : String),
      (materializeOutputs g ps).1.hasInitializer x = true →
      g.hasInitializer x = true ∨ ∃ p ∈ ps, (p : NodeArg × OrtValue).1.name = x
  | [], g, x, h => Or.inl h
  | (arg, v) :: rest, g, x, h => by
      unfold materializeOutputs at h
      cases hb : buildTensorProtoForInitializer v arg with
      | none => rw [hb] at h; exact Or.inl h
      | some tp =>
          rw [hb] at h
          rcases materializeOutputs_hasInit_of rest _ x h with h' | ⟨p, hp, hpx⟩
          · rcases (Graph.hasInitializer_addInitializedTensor g tp x).mp h' with h'' | h''
            · exact Or.inl h''
            · refine Or.inr ⟨(arg, v), List.mem_cons_self _ _, ?_⟩
              rw [buildTensorProtoForInitializer_name hb] at h''
              exact h''
          · exact Or.inr ⟨p, List.mem_cons_of_mem _ hp, hpx⟩

theorem materializeOutputs_adds :
    ∀ (ps : List (NodeArg × OrtValue)) (g : Graph),
      (materializeOutputs g ps).2 = none →
      ∀ p ∈ ps, (materializeOutputs g ps).1.hasInitializer (p : NodeArg × OrtValue).1.name = true
  | [], g, _, p, hp => absurd hp (List.not_mem_nil p)
  | (arg, v) :: rest, g, hsucc, p, hp => by
      unfold materializeOutputs at hsucc ⊢
      cases hb : buildTensorProtoForInitializer v arg with
      | none => rw [hb] at hsucc; exact Option.noConfusion hsucc
      | some tp =>
          rw [hb] at hsucc
          rcases List.mem_cons.mp hp with rfl | hp'
          · apply materializeOutputs_hasInit_mono
            apply (Graph.hasInitializer_addInitializedTensor g tp _).mpr
            exact Or.inr (buildTensorProtoForInitializer_name hb)
          · exact materializeOutputs_adds rest _ hsucc p hp'

theorem recurseGraphsWith_length (F : Graph → PassResult) :
    ∀ sgs : List Graph, (recurseGraphsWith F sgs).1.length = sgs.length
  | [] => rfl
  | sg :: rest => by
      unfold recurseGraphsWith
      by_cases he : (F sg).error.isSome
      · simp [he]
      · simp [he, recurseGraphsWith_length F rest]

theorem recurseGraphsWith_stable {F : Graph → PassResult} :
    ∀ {sgs : List Graph}, (∀ sg ∈ sgs, F sg = ⟨sg, false, none⟩) →
      recurseGraphsWith F sgs = (sgs, false, none)
  | [], _ => rfl
  | sg :: rest, h => by
      unfold recurseGraphsWith
      rw [h sg (List.mem_cons_self _ _),
        recurseGraphsWith_stable (fun sg' hs => h sg' (List.mem_cons_of_mem _ hs))]
      simp

theorem recurseGraphsWith_success_mem {F : Graph → PassResult} :
    ∀ {sgs sgs' : List Graph} {m : Bool},
      recurseGraphsWith F sgs = (sgs', m, none) →
      ∀ sg' ∈ sgs', ∃ sg ∈ sgs, ∃ m' : Bool, F sg = ⟨sg', m', none⟩
  | [], sgs', m, h, sg', hs => by
      unfold recurseGraphsWith at h
      injection h with h1 h23
      subst h1
      exact absurd hs (List.not_mem_nil sg')
  | sg :: rest, sgs', m, h, sg', hs => by
      unfold recurseGraphsWith at h
      by_cases he : (F sg).error.isSome
      · rw [if_pos he] at h
        injection h with h1 h23
        injection h23 with h2 h3
        rw [h3] at he
        simp at he
      · rw [if_neg he] at h
        injection h with h1 h23
        injection h23 with h2 h3
        subst h1
        rcases List.mem_cons.mp hs with rfl | hs'
        · refine ⟨sg, List.mem_cons_self _ _, (F sg).modified, ?_⟩
          have herr : (F sg).error = none := Option.not_isSome_iff_eq_none.mp he
          calc F sg = ⟨(F sg).graph, (F sg).modified, (F sg).error⟩ := rfl
            _ = ⟨(F sg).graph, (F sg).modified, none⟩ := by rw [herr]
        · have h' : recurseGraphsWith F rest =
              ((recurseGraphsWith F rest).1, (recurseGraphsWith F rest).2.1, none) := by
            rw [← h3]
          rcases recurseGraphsWith_success_mem h' sg' hs' with ⟨sg₀, hsg₀, m', hF⟩
          exact ⟨sg₀, List.mem_cons_of_mem _ hsg₀, m', hF⟩

@[simp] theorem recurseNodeWith_node_opType (F : Graph → PassResult) (n : Node) :
    (recurseNodeWith F n).node.opType = n.opType := rfl

@[simp] theorem recurseNodeWith_node_execProvider (F : Graph → PassResult) (n : Node) :
    (recurseNodeWith F n).node.execProvider = n.execProvider := rfl

@[simp] theorem recurseNodeWith_node_inputDefs (F : Graph → PassResult) (n : Node) :
    (recurseNodeWith F n).node.inputDefs = n.inputDefs := rfl

@[simp] theorem recurseNodeWith_node_outputDefs (F : Graph → PassResult) (n : Node) :
    (recurseNodeWith F n).node.outputDefs = n.outputDefs := rfl

@[simp] theorem recurseNodeWith_node_subgraphs (F : Graph → PassResult) (n : Node) :
    (recurseNodeWith F n).node.subgraphs = (recurseGraphsWith F n.subgraphs).1 := rfl

@[simp] theorem recurseNodeWith_modified (F : Graph → PassResult) (n : Node) :
    (recurseNodeWith F n).modified = (recurseGraphsWith F n.subgraphs).2.1 := rfl

@[simp] theorem recurseNodeWith_error (F : Graph → PassResult) (n : Node) :
    (recurseNodeWith F n).error = (recurseGraphsWith F n.subgraphs).2.2 := rfl

theorem recurseNodeWith_node_outputNames (F : Graph → PassResult) (n : Node) :
    (recurseNodeWith F n).node.outputNames = n.outputNames := rfl

theorem recurseNodeWith_node_subgraphs_length (F : Graph → PassResult) (n : Node) :
    (recurseNodeWith F n).node.subgraphs.length = n.subgraphs.length := by
  simp [recurseGraphsWith_length]

theorem recurseNodeWith_stable {F : Graph → PassResult} {n : Node}
    (h : ∀ sg ∈ n.subgraphs, F sg = ⟨sg, false, none⟩) :
    recurseNodeWith F n = ⟨n, false, none⟩ := by
  unfold recurseNodeWith
  rw [recurseGraphsWith_stable h]
  simp [Node.etaNode]

theorem Graph.getNode_eq_of_nodes {g₁ g₂ : Graph} (h : g₁.nodes = g₂.nodes) (i : Nat) :
    g₁.getNode i = g₂.getNode i := by
  unfold Graph.getNode
  rw [h]

theorem foldEligibleNode_graphOutputs (K : KernelSem) (g' : Graph) (i : Nat) (n' : Node)
    (rm : Bool) : (foldEligibleNode K g' i n' rm).graph.graphOutputs = g'.graphOutputs := by
  unfold foldEligibleNode
  by_cases hc : (K n' g'.initializers).fetches.length = n'.outputDefs.length
  · rw [if_pos hc]
    have hgo := materializeOutputs_graphOutputs (n'.outputDefs.zip (K n' g'.initializers).fetches) g'
    cases hmo : materializeOutputs g' (n'.outputDefs.zip (K n' g'.initializers).fetches) with
    | mk g'' e =>
        rw [hmo] at hgo
        cases e <;> simp [foldOutcome, hgo]
  · rw [if_neg hc]

theorem foldEligibleNode_length (K : KernelSem) (g' : Graph) (i : Nat) (n' : Node)
    (rm : Bool) : (foldEligibleNode K g' i n' rm).graph.nodes.length = g'.nodes.length := by
  unfold foldEligibleNode
  by_cases hc : (K n' g'.initializers).fetches.length = n'.outputDefs.length
  · rw [if_pos hc]
    have hn := materializeOutputs_nodes (n'.outputDefs.zip (K n' g'.initializers).fetches) g'
    cases hmo : materializeOutputs g' (n'.outputDefs.zip (K n' g'.initializers).fetches) with
    | mk g'' e =>
        rw [hmo] at hn
        cases e <;> simp [foldOutcome, hn]
  · rw [if_neg hc]

theorem foldEligibleNode_getNode_ne (K : KernelSem) (g' : Graph) {i j : Nat} (n' : Node)
    (rm : Bool) (h : j ≠ i) :
    (foldEligibleNode K g' i n' rm).graph.getNode j = g'.getNode j := by
  unfold foldEligibleNode
  by_cases hc : (K n' g'.initializers).fetches.length = n'.outputDefs.length
  · rw [if_pos hc]
    have hn := materializeOutputs_nodes (n'.outputDefs.zip (K n' g'.initializers).fetches) g'
    cases hmo : materializeOutputs g' (n'.outputDefs.zip (K n' g'.initializers).fetches) with
    | mk g'' e =>
        rw [hmo] at hn
        cases e with
        | none =>
            show (g''.removeNode i).getNode j = g'.getNode j
            rw [Graph.getNode_removeNode_ne _ h]
            exact Graph.getNode_eq_of_nodes hn j
        | some e' =>
            show g''.getNode j = g'.getNode j
            exact Graph.getNode_eq_of_nodes hn j
  · rw [if_neg hc]

theorem foldEligibleNode_hasInit_of (K : KernelSem) (g' : Graph) (i : Nat) (n' : Node)
    (rm : Bool) (x : String)
    (h : (foldEligibleNode K g' i n' rm).graph.hasInitializer x = true) :
    g'.hasInitializer x = true ∨ x ∈ n'.outputNames := by
  unfold foldEligibleNode at h
  by_cases hc : (K n' g'.initializers).fetches.length = n'.outputDefs.length
  · rw [if_pos hc] at h
    have key :
        (materializeOutputs g' (n'.outputDefs.zip (K n' g'.initializers).fetches)).1.hasInitializer x = true →
        g'.hasInitializer x = true ∨ x ∈ n'.outputNames := by
      intro hm
      rcases materializeOutputs_hasInit_of _ _ _ hm with h' | ⟨p, hp, hpx⟩
      · exact Or.inl h'
      · have := (List.of_mem_zip hp).1
        exact Or.inr (hpx ▸ List.mem_map.mpr ⟨p.1, this, rfl⟩)
    cases hmo : materializeOutputs g' (n'.outputDefs.zip (K n' g'.initializers).fetches) with
    | mk g'' e =>
        rw [hmo] at h key
        cases e with
        | none => exact key (by simpa [foldOutcome] using h)
        | some e' => exact key (by simpa [foldOutcome] using h)
  · rw [if_neg hc] at h
    exact Or.inl h

theorem foldEligibleNode_mismatch {K : KernelSem} {g' : Graph} {i : Nat} {n' : Node}
    {rm : Bool} (hc : ¬ (K n' g'.initializers).fetches.length = n'.outputDefs.length) :
    foldEligibleNode K g' i n' rm = ⟨g', rm, some FoldError.fetchCountMismatch⟩ := by
  unfold foldEligibleNode
  rw [if_neg hc]

theorem foldEligibleNode_success {K : KernelSem} {g' : Graph} {i : Nat} {n' : Node}
    {rm : Bool} (hc : (K n' g'.initializers).fetches.length = n'.outputDefs.length)
    (hmo : (materializeOutputs g' (n'.outputDefs.zip (K n' g'.initializers).fetches)).2 = none) :
    foldEligibleNode K g' i n' rm =
      ⟨(materializeOutputs g' (n'.outputDefs.zip (K n' g'.initializers).fetches)).1.removeNode i,
       true, none⟩ := by
  unfold foldEligibleNode
  rw [if_pos hc]
  cases hm : materializeOutputs g' (n'.outputDefs.zip (K n' g'.initializers).fetches) with
  | mk g'' e =>
      rw [hm] at hmo
      simp only at hmo
      subst hmo
      simp [foldOutcome, hm]

theorem foldEligibleNode_error_getNode {K : KernelSem} {g' : Graph} {i : Nat} {n' : Node}
    {rm : Bool} (he : (foldEligibleNode K g' i n' rm).error.isSome = true) :
    (foldEligibleNode K g' i n' rm).graph.getNode i = g'.getNode i := by
  unfold foldEligibleNode at he ⊢
  by_cases hc : (K n' g'.initializers).fetches.length = n'.outputDefs.length
  · rw [if_pos hc] at he ⊢
    have hn := materializeOutputs_nodes (n'.outputDefs.zip (K n' g'.initializers).fetches) g'
    cases hmo : materializeOutputs g' (n'.outputDefs.zip (K n' g'.initializers).fetches) with
    | mk g'' e =>
        rw [hmo] at hn he
        cases e with
        | none => simp [foldOutcome] at he
        | some e' => exact Graph.getNode_eq_of_nodes hn i
  · rw [if_neg hc]

theorem afterRecurse_error_some {compatible : List String} {K : KernelSem} {g : Graph}
    {i : Nat} {r : NodeRecResult} {e : FoldError} (he : r.error = some e) :
    afterRecurse compatible K g i r = ⟨g.setNode i r.node, r.modified, some e⟩ := by
  unfold afterRecurse
  rw [he]

theorem afterRecurse_skip {compatible : List String} {K : KernelSem} {g : Graph}
    {i : Nat} {r : NodeRecResult} (he : r.error = none)
    (hs : shouldSkip compatible (g.setNode i r.node) r.node = true) :
    afterRecurse compatible K g i r = ⟨g.setNode i r.node, r.modified, none⟩ := by
  unfold afterRecurse
  rw [he]
  simp only [hs, if_true]

theorem afterRecurse_eligible {compatible : List String} {K : KernelSem} {g : Graph}
    {i : Nat} {r : NodeRecResult} (he : r.error = none)
    (hs : shouldSkip compatible (g.setNode i r.node) r.node = false) :
    afterRecurse compatible K g i r = foldEligibleNode K (g.setNode i r.node) i r.node r.modified := by
  unfold afterRecurse
  rw [he]
  simp only [hs, Bool.false_eq_true, if_false]

theorem afterRecurse_graphOutputs (compatible : List String) (K : KernelSem) (g : Graph)
    (i : Nat) (r : NodeRecResult) :
    (afterRecurse compatible K g i r).graph.graphOutputs = g.graphOutputs := by
  unfold afterRecurse
  cases r.error with
  | some e => rfl
  | none =>
      by_cases hs : shouldSkip compatible (g.setNode i r.node) r.node
      · simp [hs]
      · simp only [hs, Bool.false_eq_true, if_false]
        rw [foldEligibleNode_graphOutputs]
        rfl

theorem afterRecurse_length (compatible : List String) (K : KernelSem) (g : Graph)
    (i : Nat) (r : NodeRecResult) :
    (afterRecurse compatible K g i r).graph.nodes.length = g.nodes.length := by
  unfold afterRecurse
  cases r.error with
  | some e => simp
  | none =>
      by_cases hs : shouldSkip compatible (g.setNode i r.node) r.node
      · simp [hs]
      · simp only [hs, Bool.false_eq_true, if_false]
        rw [foldEligibleNode_length]
        simp

theorem afterRecurse_getNode_ne (compatible : List String) (K : KernelSem) (g : Graph)
    {i j : Nat} (r : NodeRecResult) (h : j ≠ i) :
    (afterRecurse compatible K g i r).graph.getNode j = g.getNode j := by
  unfold afterRecurse
  cases r.error with
  | some e => exact Graph.getNode_setNode_ne g _ h
  | none =>
      by_cases hs : shouldSkip compatible (g.setNode i r.node) r.node
      · simp only [hs, if_true]
        exact Graph.getNode_setNode_ne g _ h
      · simp only [hs, Bool.false_eq_true, if_false]
        rw [foldEligibleNode_getNode_ne _ _ _ _ h]
        exact Graph.getNode_setNode_ne g _ h

theorem afterRecurse_hasInit_of (compatible : List String) (K : KernelSem) (g : Graph)
    (i : Nat) (r : NodeRecResult) (x : String)
    (h : (afterRecurse compatible K g i r).graph.hasInitializer x = true) :
    g.hasInitializer x = true ∨ x ∈ r.node.outputNames := by
  cases he : r.error with
  | some e =>
      rw [afterRecurse_error_some he] at h
      exact Or.inl h
  | none =>
      cases hs : shouldSkip compatible (g.setNode i r.node) r.node with
      | true =>
          rw [afterRecurse_skip he hs] at h
          exact Or.inl h
      | false =>
          rw [afterRecurse_eligible he hs] at h
          rcases foldEligibleNode_hasInit_of _ _ _ _ _ _ h with h' | h'
          · exact Or.inl h'
          · exact Or.inr h'

theorem processNodeWith_none {F : Graph → PassResult} {compatible : List String}
    {K : KernelSem} {g : Graph} {i : Nat} (h : g.getNode i = none) :
    processNodeWith F compatible K g i = ⟨g, false, none⟩ := by
  unfold processNodeWith
  rw [h]

theorem processNodeWith_some {F : Graph → PassResult} {compatible : List String}
    {K : KernelSem} {g : Graph} {i : Nat} {n : Node} (h : g.getNode i = some n) :
    processNodeWith F compatible K g i = afterRecurse compatible K g i (recurseNodeWith F n) := by
  unfold processNodeWith
  rw [h]

theorem processNode_graphOutputs (F : Graph → PassResult) (compatible : List String)
    (K : KernelSem) (g : Graph) (i : Nat) :
    (processNodeWith F compatible K g i).graph.graphOutputs = g.graphOutputs := by
  cases hn : g.getNode i with
  | none => rw [processNodeWith_none hn]
  | some n => rw [processNodeWith_some hn]; exact afterRecurse_graphOutputs _ _ _ _ _

theorem processNode_length (F : Graph → PassResult) (compatible : List String)
    (K : KernelSem) (g : Graph) (i : Nat) :
    (processNodeWith F compatible K g i).graph.nodes.length = g.nodes.length := by
  cases hn : g.getNode i with
  | none => rw [processNodeWith_none hn]
  | some n => rw [processNodeWith_some hn]; exact afterRecurse_length _ _ _ _ _

theorem processNode_getNode_ne (F : Graph → PassResult) (compatible : List String)
    (K : KernelSem) (g : Graph) {i j : Nat} (h : j ≠ i) :
    (processNodeWith F compatible K g i).graph.getNode j = g.getNode j := by
  cases hn : g.getNode i with
  | none => rw [processNodeWith_none hn]
  | some n => rw [processNodeWith_some hn]; exact afterRecurse_getNode_ne _ _ _ _ h

theorem processNode_hasInit_of (F : Graph → PassResult) (compatible : List String)
    (K : KernelSem) (g : Graph) (i : Nat) (x : String)
    (h : (processNodeWith F compatible K g i).graph.hasInitializer x = true) :
    g.hasInitializer x = true ∨ ∃ n : Node, g.getNode i = some n ∧ x ∈ n.outputNames := by
  cases hn : g.getNode i with
  | none => rw [processNodeWith_none hn] at h; exact Or.inl h
  | some n =>
      rw [processNodeWith_some hn] at h
      rcases afterRecurse_hasInit_of _ _ _ _ _ _ h with h' | h'
      · exact Or.inl h'
      · rw [recurseNodeWith_node_outputNames] at h'
        exact Or.inr ⟨n, rfl, h'⟩

theorem applyLoop_cons_error {F : Graph → PassResult} {compatible : List String}
    {K : KernelSem} {i : Nat} {rest : List Nat} {g : Graph} {m : Bool}
    (he : (processNodeWith F compatible K g i).error.isSome = true) :
    applyLoopWith F compatible K (i :: rest) g m =
      ⟨(processNodeWith F compatible K g i).graph,
       m || (processNodeWith F compatible K g i).modified,
       (processNodeWith F compatible K g i).error⟩ := by
  unfold applyLoopWith
  rw [if_pos he]

theorem applyLoop_cons_ok {F : Graph → PassResult} {compatible : List String}
    {K : KernelSem} {i : Nat} {rest : List Nat} {g : Graph} {m : Bool}
    (he : (processNodeWith F compatible K g i).error.isSome = false) :
    applyLoopWith F compatible K (i :: rest) g m =
      applyLoopWith F compatible K rest (processNodeWith F compatible K g i).graph
        (m || (processNodeWith F compatible K g i).modified) := by
  unfold applyLoopWith
  rw [if_neg (by simp [he])]
  cases rest <;> rfl

theorem applyLoop_graphOutputs (F : Graph → PassResult) (compatible : List String)
    (K : KernelSem) :
    ∀ (order : List Nat) (g : Graph) (m : Bool),
      (applyLoopWith F compatible K order g m).graph.graphOutputs = g.graphOutputs
  | [], g, m => rfl
  | i :: rest, g, m => by
      cases he : (processNodeWith F compatible K g i).error.isSome with
      | true =>
          rw [applyLoop_cons_error he]
          exact processNode_graphOutputs F compatible K g i
      | false =>
          rw [applyLoop_cons_ok he,
            applyLoop_graphOutputs F compatible K rest _ _]
          exact processNode_graphOutputs F compatible K g i

theorem applyLoop_length (F : Graph → PassResult) (compatible : List String)
    (K : KernelSem) :
    ∀ (order : List Nat) (g : Graph) (m : Bool),
      (applyLoopWith F compatible K order g m).graph.nodes.length = g.nodes.length
  | [], g, m => rfl
  | i :: rest, g, m => by
      cases he : (processNodeWith F compatible K g i).error.isSome with
      | true =>
          rw [applyLoop_cons_error he]
          exact processNode_length F compatible K g i
      | false =>
          rw [applyLoop_cons_ok he, applyLoop_length F compatible K rest _ _]
          exact processNode_length F compatible K g i

theorem applyLoop_getNode_notMem (F : Graph → PassResult) (compatible : List String)
    (K : KernelSem) :
    ∀ (order : List Nat) (g : Graph) (m : Bool) (j : Nat), j ∉ order →
      (applyLoopWith F compatible K order g m).graph.getNode j = g.getNode j
  | [], g, m, j, _ => rfl
  | i :: rest, g, m, j, hj => by
      have hji : j ≠ i := fun h => hj (h ▸ List.mem_cons_self i rest)
      have hjr : j ∉ rest := fun h => hj (List.mem_cons_of_mem _ h)
      cases he : (processNodeWith F compatible K g i).error.isSome with
      | true =>
          rw [applyLoop_cons_error he]
          exact processNode_getNode_ne F compatible K g hji
      | false =>
          rw [applyLoop_cons_ok he,
            applyLoop_getNode_notMem F compatible K rest _ _ j hjr]
          exact processNode_getNode_ne F compatible K g hji

theorem applyLoop_hasInit_of (F : Graph → PassResult) (compatible : List String)
    (K : KernelSem) :
    ∀ (order : List Nat) (g : Graph) (m : Bool) (x : String),
      order.Pairwise (fun a b => a ≠ b) →
      (applyLoopWith F compatible K order g m).graph.hasInitializer x = true →
      g.hasInitializer x = true ∨
        ∃ j ∈ order, ∃ n : Node, g.getNode j = some n ∧ x ∈ n.outputNames
  | [], g, m, x, _, h => Or.inl h
  | i :: rest, g, m, x, hpw, h => by
      have hpw' := (List.pairwise_cons.mp hpw).2
      have hne := (List.pairwise_cons.mp hpw).1
      cases he : (processNodeWith F compatible K g i).error.isSome with
      | true =>
          rw [applyLoop_cons_error he] at h
          rcases processNode_hasInit_of F compatible K g i x h with h' | ⟨n, hn, hx⟩
          · exact Or.inl h'
          · exact Or.inr ⟨i, List.mem_cons_self _ _, n, hn, hx⟩
      | false =>
          rw [applyLoop_cons_ok he] at h
          rcases applyLoop_hasInit_of F compatible K rest _ _ x hpw' h with h' | ⟨j, hj, n, hn, hx⟩
          · rcases processNode_hasInit_of F compatible K g i x h' with h'' | ⟨n, hn, hx⟩
            · exact Or.inl h''
            · exact Or.inr ⟨i, List.mem_cons_self _ _, n, hn, hx⟩
          · rw [processNode_getNode_ne F compatible K g (fun hh => (hne j hj) hh.symm)] at hn
            exact Or.inr ⟨j, List.mem_cons_of_mem _ hj, n, hn, hx⟩

@[simp] theorem applyImplF_zero (compatible : List String) (K : KernelSem) (g : Graph) :
    applyImplF 0 compatible K g = ⟨g, false, some FoldError.outOfFuel⟩ := rfl

theorem applyImplF_succ (fuel : Nat) (compatible : List String) (K : KernelSem) (g : Graph) :
    applyImplF (fuel + 1) compatible K g =
      applyLoopWith (applyImplF fuel compatible K) compatible K
        (List.range g.nodes.length) g false := rfl

theorem graphsSize_ge {sg : Graph} : ∀ {sgs : List Graph}, sg ∈ sgs → sg.ssize ≤ graphsSize sgs
  | [], h => absurd h (List.not_mem_nil sg)
  | sg' :: rest, h => by
      rcases List.mem_cons.mp h with rfl | h'
      · unfold graphsSize
        exact Nat.le_add_right _ _
      · unfold graphsSize
        exact Nat.le_trans (graphsSize_ge h') (Nat.le_add_left _ _)

theorem slotsSize_ge {n : Node} : ∀ {ns : List (Option Node)}, some n ∈ ns →
    1 + n.ssize ≤ slotsSize ns
  | [], h => absurd h (List.not_mem_nil _)
  | s :: rest, h => by
      rcases List.mem_cons.mp h with h' | h'
      · cases s with
        | none => exact Option.noConfusion h'
        | some n' =>
            injection h' with h''
            subst h''
            unfold slotsSize
            omega
      · cases s with
        | none =>
            unfold slotsSize
            have := slotsSize_ge h'
            omega
        | some n' =>
            unfold slotsSize
            have := slotsSize_ge h'
            omega

theorem Graph.ssize_pos (g : Graph) : 1 ≤ g.ssize := by
  cases g with
  | mk ns inits outs =>
      unfold Graph.ssize
      omega

theorem ssize_subgraph_lt {g : Graph} {i : Nat} {n : Node} {sg : Graph}
    (hn : g.getNode i = some n) (hsg : sg ∈ n.subgraphs) : sg.ssize + 2 ≤ g.ssize := by
  have h1 : sg.ssize ≤ graphsSize n.subgraphs := graphsSize_ge hsg
  have h2 : n.ssize = 1 + graphsSize n.subgraphs := by
    cases n with
    | mk t e ins outs sgs => unfold Node.ssize; rfl
  have h3 : 1 + n.ssize ≤ slotsSize g.nodes := slotsSize_ge (Graph.getNode_some_mem hn)
  have h4 : g.ssize = 1 + slotsSize g.nodes := by
    cases g with
    | mk ns inits outs => unfold Graph.ssize; rfl
  omega

theorem recurseNodeWith_containsSubgraph (F : Graph → PassResult) (n : Node) :
    (recurseNodeWith F n).node.containsSubgraph = n.containsSubgraph := by
  unfold Node.containsSubgraph
  rw [recurseNodeWith_node_subgraphs]
  have h := recurseGraphsWith_length F n.subgraphs
  cases h1 : (recurseGraphsWith F n.subgraphs).1 with
  | nil =>
      rw [h1] at h
      cases h2 : n.subgraphs with
      | nil => rfl
      | cons a l => rw [h2] at h; simp at h
  | cons a l =>
      rw [h1] at h
      cases h2 : n.subgraphs with
      | nil => rw [h2] at h; simp at h
      | cons b l2 => rfl

theorem shouldSkip_recursed (F : Graph → PassResult) (compatible : List String) (g : Graph)
    (i : Nat) (n : Node) :
    shouldSkip compatible (g.setNode i (recurseNodeWith F n).node) (recurseNodeWith F n).node =
      shouldSkip compatible g n := by
  unfold shouldSkip
  rw [recurseNodeWith_containsSubgraph]
  rfl

theorem allConst_eq_false_iff (g : Graph) (n : Node) :
    allNodeInputsAreConstant g n = false ↔
      ∃ x ∈ n.inputDefs, g.hasInitializer x = false := by
  simp [allNodeInputsAreConstant, List.all_eq_true]

theorem shouldSkip_eq_false_iff (compatible : List String) (g : Graph) (n : Node) :
    shouldSkip compatible g n = false ↔
      (isSupportedProvider compatible n = true ∧
       excludedOpTypesDefault.contains n.opType = false ∧
       n.containsSubgraph = false ∧
       isNodeOutputsInGraphOutputs g n = false ∧
       allNodeInputsAreConstant g n = true) := by
  unfold shouldSkip
  cases isSupportedProvider compatible n <;>
    cases hcp : excludedOpTypesDefault.contains n.opType <;>
      cases n.containsSubgraph <;>
        cases isNodeOutputsInGraphOutputs g n <;>
          cases allNodeInputsAreConstant g n <;> simp [hcp]

theorem mem_zip_left {α β : Type} : ∀ {l1 : List α} {l2 : List β}, l1.length ≤ l2.length →
    ∀ a ∈ l1, ∃ b : β, (a, b) ∈ l1.zip l2
  | [], _, _, a, ha => absurd ha (List.not_mem_nil a)
  | x :: r1, [], h, a, ha => by simp at h
  | x :: r1, y :: r2, h, a, ha => by
      rcases List.mem_cons.mp ha with rfl | ha'
      · exact ⟨y, List.mem_cons_self _ _⟩
      · rcases mem_zip_left (Nat.le_of_succ_le_succ h) a ha' with ⟨b, hb⟩
        exact ⟨b, List.mem_cons_of_mem _ hb⟩

theorem processNode_skips {F : Graph → PassResult} {compatible : List String} {K : KernelSem}
    {g : Graph} {i : Nat} {n : Node}
    (hn : g.getNode i = some n)
    (hrec : (recurseNodeWith F n).error = none)
    (hs : shouldSkip compatible g n = true) :
    processNodeWith F compatible K g i =
      ⟨g.setNode i (recurseNodeWith F n).node, (recurseNodeWith F n).modified, none⟩ := by
  rw [processNodeWith_some hn,
    afterRecurse_skip hrec (by rw [shouldSkip_recursed]; exact hs)]

theorem processNode_folds {F : Graph → PassResult} {compatible : List String} {K : KernelSem}
    {g : Graph} {i : Nat} {n : Node}
    (hn : g.getNode i = some n)
    (hrec : (recurseNodeWith F n).error = none)
    (hs : shouldSkip compatible g n = false)
    (hcount : (K (recurseNodeWith F n).node g.initializers).fetches.length = n.outputDefs.length)
    (htensor : ∀ v ∈ (K (recurseNodeWith F n).node g.initializers).fetches,
      OrtValue.isTensor v = true) :
    processNodeWith F compatible K g i =
      ⟨(materializeOutputs (g.setNode i (recurseNodeWith F n).node)
          (n.outputDefs.zip (K (recurseNodeWith F n).node g.initializers).fetches)).1.removeNode i,
       true, none⟩ := by
  rw [processNodeWith_some hn,
    afterRecurse_eligible hrec (by rw [shouldSkip_recursed]; exact hs)]
  exact foldEligibleNode_success hcount
    (materializeOutputs_error_none _ _ (fun p hp => htensor p.2 (List.of_mem_zip hp).2))

theorem processNode_folds_adds_all {F : Graph → PassResult} {compatible : List String}
    {K : KernelSem} {g : Graph} {i : Nat} {n : Node}
    (hn : g.getNode i = some n)
    (hrec : (recurseNodeWith F n).error = none)
    (hs : shouldSkip compatible g n = false)
    (hcount : (K (recurseNodeWith F n).node g.initializers).fetches.length = n.outputDefs.length)
    (htensor : ∀ v ∈ (K (recurseNodeWith F n).node g.initializers).fetches,
      OrtValue.isTensor v = true) :
    ∀ a ∈ n.outputDefs,
      (processNodeWith F compatible K g i).graph.hasInitializer a.name = true := by
  intro a ha
  rw [processNode_folds hn hrec hs hcount htensor]
  show (materializeOutputs _ _).1.hasInitializer a.name = true
  rcases mem_zip_left (by rw [hcount]) a ha with ⟨v, hv⟩
  exact materializeOutputs_adds _ _
    (materializeOutputs_error_none _ _ (fun p hp => htensor p.2 (List.of_mem_zip hp).2)) (a, v) hv

theorem materializeOutputs_split :
    ∀ (ps₁ : List (NodeArg × OrtValue)) (g' : Graph) (a : NodeArg)
      (ps₂ : List (NodeArg × OrtValue)),
      (∀ p ∈ ps₁, OrtValue.isTensor (p : NodeArg × OrtValue).2 = true) →
      materializeOutputs g' (ps₁ ++ (a, OrtValue.other) :: ps₂) =
        ((materializeOutputs g' ps₁).1, some FoldError.nonTensorValue)
  | [], g', a, ps₂, _ => rfl
  | (a₁, v₁) :: r, g', a, ps₂, h => by
      have hv : OrtValue.isTensor v₁ = true := h (a₁, v₁) (List.mem_cons_self _ _)
      cases v₁ with
      | other => simp [OrtValue.isTensor] at hv
      | tensor t =>
          have hrec := materializeOutputs_split r
            (g'.addInitializedTensor
              ⟨a₁.name, t.dims, a₁.elemType, t.bytes.take (t.elemTypeSize * t.dims.prod)⟩)
            a ps₂ (fun p hp => h p (List.mem_cons_of_mem _ hp))
          calc materializeOutputs g' (((a₁, OrtValue.tensor t) :: r) ++ (a, OrtValue.other) :: ps₂)
              = materializeOutputs
                  (g'.addInitializedTensor
                    ⟨a₁.name, t.dims, a₁.elemType, t.bytes.take (t.elemTypeSize * t.dims.prod)⟩)
                  (r ++ (a, OrtValue.other) :: ps₂) := rfl
            _ = ((materializeOutputs
                    (g'.addInitializedTensor
                      ⟨a₁.name, t.dims, a₁.elemType, t.bytes.take (t.elemTypeSize * t.dims.prod)⟩)
                    r).1, some FoldError.nonTensorValue) := hrec
            _ = ((materializeOutputs g' ((a₁, OrtValue.tensor t) :: r)).1,
                  some FoldError.nonTensorValue) := rfl

/-- C10: the `excluded_initializers` set passed to the `ConstantFolding`
constructor has no effect on behavior — for every graph and kernel semantics,
two passes constructed with the same compatible execution providers but any
two excluded-initializer sets produce identical results (resulting graph,
modified flag, and status). -/
theorem C10_excludedInitializers_irrelevant (c e₁ e₂ : List String) (K : KernelSem)
    (g : Graph) :
    ConstantFolding.apply ⟨c, e₁⟩ K g = ConstantFolding.apply ⟨c, e₂⟩ K g := rfl

/-- C5: for every computed output value of a folded node, the materialized
initializer record has the original output edge's name, element type equal to
the type declared on the original output edge (not re-derived from the
computed value), dims equal to the computed tensor's shape in order, and a
raw-byte payload of length elementSize × productOfDimensions copied from the
computed tensor's buffer. -/
theorem C5_materializer_fields (t : RTensor) (arg : NodeArg)
    (hbuf : t.bytes.length = t.elemTypeSize * t.dims.prod) :
    ∃ tp : TensorProto,
      buildTensorProtoForInitializer (OrtValue.tensor t) arg = some tp ∧
      tp.name = arg.name ∧ tp.dataType = arg.elemType ∧ tp.dims = t.dims ∧
      tp.rawData = t.bytes ∧ tp.rawData.length = t.elemTypeSize * t.dims.prod := by
  refine ⟨_, buildTensorProtoForInitializer_tensor t arg, rfl, rfl, rfl, ?_, ?_⟩
  · show t.bytes.take (t.elemTypeSize * t.dims.prod) = t.bytes
    rw [← hbuf, List.take_length]
  · show (t.bytes.take (t.elemTypeSize * t.dims.prod)).length = _
    rw [← hbuf, List.take_length, hbuf]

/-- Witness for C5 at a concrete computed tensor (element size 2, shape [3],
six buffer bytes) and a concrete declared output edge. -/
theorem C5_witness :
    ([9, 8, 7, 6, 5, 4] : List Nat).length =
        (⟨2, [3], [9, 8, 7, 6, 5, 4]⟩ : RTensor).elemTypeSize * ([3] : List Nat).prod ∧
    (∃ tp : TensorProto,
      buildTensorProtoForInitializer (OrtValue.tensor ⟨2, [3], [9, 8, 7, 6, 5, 4]⟩)
          ⟨"y", 5⟩ = some tp ∧
      tp.name = "y" ∧ tp.dataType = 5 ∧ tp.dims = [3] ∧
      tp.rawData = [9, 8, 7, 6, 5, 4] ∧
      tp.rawData.length = (⟨2, [3], [9, 8, 7, 6, 5, 4]⟩ : RTensor).elemTypeSize *
        ([3] : List Nat).prod) :=
  ⟨by decide, C5_materializer_fields ⟨2, [3], [9, 8, 7, 6, 5, 4]⟩ ⟨"y", 5⟩ (by decide)⟩

/-- C6: for an eligible node (recursion succeeded, no skip condition holds),
if the number of values fetched from the execution frame differs from the
number of the node's declared outputs, the pass fails with the unrecoverable
`fetchCountMismatch` error before any initializer is added and before the
node is removed. -/
theorem C6_fetch_count_enforced (F : Graph → PassResult) (compatible : List String)
    (K : KernelSem) (g : Graph) (i : Nat) (n : Node)
    (hn : g.getNode i = some n)
    (hrec : (recurseNodeWith F n).error = none)
    (hs : shouldSkip compatible g n = false)
    (hmm : (K (recurseNodeWith F n).node g.initializers).fetches.length ≠ n.outputDefs.length) :
    (processNodeWith F compatible K g i).error = some FoldError.fetchCountMismatch ∧
    (processNodeWith F compatible K g i).graph.initializers = g.initializers ∧
    (processNodeWith F compatible K g i).graph.getNode i = some (recurseNodeWith F n).node := by
  have hp : processNodeWith F compatible K g i =
      ⟨g.setNode i (recurseNodeWith F n).node, (recurseNodeWith F n).modified,
       some FoldError.fetchCountMismatch⟩ := by
    rw [processNodeWith_some hn,
      afterRecurse_eligible hrec (by rw [shouldSkip_recursed]; exact hs)]
    exact foldEligibleNode_mismatch hmm
  rw [hp]
  exact ⟨rfl, rfl, Graph.getNode_setNode_self _ hn⟩

/-- Witness for C6: a concrete eligible "Add" node whose kernel fetches no
values (0 ≠ 1 declared outputs) makes the pass fail with
`fetchCountMismatch`, leaving the initializers and the node in place. -/
theorem C6_witness :
    (Graph.mk [some (Node.mk "Add" "" ["a"] [⟨"y", 1⟩] [])] [⟨"a", [1], 1, [0]⟩] []).getNode 0 =
        some (Node.mk "Add" "" ["a"] [⟨"y", 1⟩] []) ∧
    shouldSkip [] (Graph.mk [some (Node.mk "Add" "" ["a"] [⟨"y", 1⟩] [])] [⟨"a", [1], 1, [0]⟩] [])
        (Node.mk "Add" "" ["a"] [⟨"y", 1⟩] []) = false ∧
    (processNodeWith (fun g => ⟨g, false, none⟩) []
        (fun _ _ => ⟨none, []⟩)
        (Graph.mk [some (Node.mk "Add" "" ["a"] [⟨"y", 1⟩] [])] [⟨"a", [1], 1, [0]⟩] [])
        0).error = some FoldError.fetchCountMismatch ∧
    (processNodeWith (fun g => ⟨g, false, none⟩) []
        (fun _ _ => ⟨none, []⟩)
        (Graph.mk [some (Node.mk "Add" "" ["a"] [⟨"y", 1⟩] [])] [⟨"a", [1], 1, [0]⟩] [])
        0).graph.initializers = [⟨"a", [1], 1, [0]⟩] :=
  ⟨rfl, by decide,
   (C6_fetch_count_enforced (fun g => ⟨g, false, none⟩) [] (fun _ _ => ⟨none, []⟩)
      (Graph.mk [some (Node.mk "Add" "" ["a"] [⟨"y", 1⟩] [])] [⟨"a", [1], 1, [0]⟩] []) 0
      (Node.mk "Add" "" ["a"] [⟨"y", 1⟩] []) rfl rfl (by decide) (by decide)).1,
   (C6_fetch_count_enforced (fun g => ⟨g, false, none⟩) [] (fun _ _ => ⟨none, []⟩)
      (Graph.mk [some (Node.mk "Add" "" ["a"] [⟨"y", 1⟩] [])] [⟨"a", [1], 1, [0]⟩] []) 0
      (Node.mk "Add" "" ["a"] [⟨"y", 1⟩] []) rfl rfl (by decide) (by decide)).2.1⟩

/-- C3 counterexample: the pass has no caller-supplied excludedOperators
option.  A configuration whose every constructor-supplied set contains "Mul"
(the only sets the constructor accepts are the compatible execution providers
and `excluded_initializers`) still folds an eligible "Mul" node with constant
inputs — so the effective exclusion set is not the caller-supplied one; it is
always the fixed member `excluded_op_types_`. -/
theorem C3_counterexample :
    (ConstantFolding.apply ⟨[], ["Mul"]⟩
        (fun _ _ => ⟨none, [OrtValue.tensor ⟨1, [1], [4]⟩]⟩)
        (Graph.mk [some (Node.mk "Mul" "" ["a"] [⟨"y", 1⟩] [])]
          [⟨"a", [1], 1, [2]⟩] [])).graph.getNode 0 = none ∧
    (ConstantFolding.apply ⟨[], ["Mul"]⟩
        (fun _ _ => ⟨none, [OrtValue.tensor ⟨1, [1], [4]⟩]⟩)
        (Graph.mk [some (Node.mk "Mul" "" ["a"] [⟨"y", 1⟩] [])]
          [⟨"a", [1], 1, [2]⟩] [])).modified = true ∧
    (ConstantFolding.mk [] ["Mul"]).excludedOpTypes = excludedOpTypesDefault ∧
    "Mul" ∈ (ConstantFolding.mk [] ["Mul"]).excludedInitializers :=
  ⟨rfl, rfl, rfl, by decide⟩

/-- C3 (amended): the operator exclusion set is not caller-configurable.  The
constructor accepts only compatible execution providers and excluded
initializer names; every constructed instance uses the fixed exclusion set
{RandomUniform, RandomNormal, RandomUniformLike, RandomNormalLike,
Multinomial}, and any node whose operator type is in that fixed set always
fails the eligibility check. -/
theorem C3_amended_fixed_exclusion (cf : ConstantFolding) (compatible : List String)
    (g : Graph) (n : Node)
    (hex : excludedOpTypesDefault.contains n.opType = true) :
    cf.excludedOpTypes =
      ["RandomUniform", "RandomNormal", "RandomUniformLike", "RandomNormalLike",
       "Multinomial"] ∧
    shouldSkip compatible g n = true := by
  refine ⟨rfl, ?_⟩
  unfold shouldSkip
  rw [hex]
  simp

/-- C1: for a visited node (recursion into subgraphs succeeded and the kernel
is well-behaved on it), the node is folded — evaluated, its outputs
materialized as initializers, and the node removed — if and only if all five
eligibility conditions hold: supported execution provider, operator type not
in the exclusion set, no nested subgraphs, no output that is a graph-level
output, and every input resolving to a constant initializer; a node failing
any condition is silently skipped, its slot holding the recursed node with
the graph otherwise unchanged and no error. -/
theorem C1_fold_iff_eligibility (F : Graph → PassResult) (compatible : List String)
    (K : KernelSem) (g : Graph) (i : Nat) (n : Node)
    (hn : g.getNode i = some n)
    (hrec : (recurseNodeWith F n).error = none)
    (hcount : (K (recurseNodeWith F n).node g.initializers).fetches.length =
      n.outputDefs.length)
    (htensor : ∀ v ∈ (K (recurseNodeWith F n).node g.initializers).fetches,
      OrtValue.isTensor v = true) :
    (((processNodeWith F compatible K g i).graph.getNode i = none ∧
      (processNodeWith F compatible K g i).error = none ∧
      (processNodeWith F compatible K g i).modified = true ∧
      ∀ a ∈ n.outputDefs,
        (processNodeWith F compatible K g i).graph.hasInitializer a.name = true)
    ↔ (isSupportedProvider compatible n = true ∧
       excludedOpTypesDefault.contains n.opType = false ∧
       n.containsSubgraph = false ∧
       isNodeOutputsInGraphOutputs g n = false ∧
       allNodeInputsAreConstant g n = true)) ∧
    (shouldSkip compatible g n = true →
      processNodeWith F compatible K g i =
        ⟨g.setNode i (recurseNodeWith F n).node, (recurseNodeWith F n).modified, none⟩) := by
  constructor
  · constructor
    · rintro ⟨hnone, herr, hmod, hadds⟩
      cases hsv : shouldSkip compatible g n with
      | true =>
          exfalso
          rw [processNode_skips hn hrec hsv] at hnone
          rw [show (⟨g.setNode i (recurseNodeWith F n).node, (recurseNodeWith F n).modified,
            none⟩ : PassResult).graph = g.setNode i (recurseNodeWith F n).node from rfl,
            Graph.getNode_setNode_self _ hn] at hnone
          exact Option.noConfusion hnone
      | false => exact (shouldSkip_eq_false_iff compatible g n).mp hsv
    · rintro ⟨h1, h2, h3, h4, h5⟩
      have hs : shouldSkip compatible g n = false :=
        (shouldSkip_eq_false_iff compatible g n).mpr ⟨h1, h2, h3, h4, h5⟩
      refine ⟨?_, ?_, ?_, processNode_folds_adds_all hn hrec hs hcount htensor⟩
      · rw [processNode_folds hn hrec hs hcount htensor]
        exact Graph.getNode_removeNode_self _ _
      · rw [processNode_folds hn hrec hs hcount htensor]
      · rw [processNode_folds hn hrec hs hcount htensor]
  · intro hs
    exact processNode_skips hn hrec hs

/-- Witness for C1 at a concrete eligible "Add" node with one constant input
and a kernel fetching one tensor: the five conditions hold and the node is
removed. -/
theorem C1_witness :
    shouldSkip [] (Graph.mk [some (Node.mk "Add" "" ["a"] [⟨"y", 1⟩] [])] [⟨"a", [1], 1, [0]⟩] [])
        (Node.mk "Add" "" ["a"] [⟨"y", 1⟩] []) = false ∧
    (processNodeWith (fun g => ⟨g, false, none⟩) []
        (fun _ _ => ⟨none, [OrtValue.tensor ⟨1, [1], [7]⟩]⟩)
        (Graph.mk [some (Node.mk "Add" "" ["a"] [⟨"y", 1⟩] [])] [⟨"a", [1], 1, [0]⟩] [])
        0).graph.getNode 0 = none :=
  ⟨by decide,
   ((C1_fold_iff_eligibility (fun g => ⟨g, false, none⟩) []
      (fun _ _ => ⟨none, [OrtValue.tensor ⟨1, [1], [7]⟩]⟩)
      (Graph.mk [some (Node.mk "Add" "" ["a"] [⟨"y", 1⟩] [])] [⟨"a", [1], 1, [0]⟩] []) 0
      (Node.mk "Add" "" ["a"] [⟨"y", 1⟩] []) rfl rfl (by decide) (by decide)).1.mpr
      (by decide)).1⟩

theorem recurseGraphsWith_congr {F₁ F₂ : Graph → PassResult} (h : ∀ sg, F₁ sg = F₂ sg) :
    ∀ sgs : List Graph, recurseGraphsWith F₁ sgs = recurseGraphsWith F₂ sgs
  | [] => rfl
  | sg :: rest => by
      unfold recurseGraphsWith
      rw [h sg, recurseGraphsWith_congr h rest]

theorem recurseNodeWith_congr {F₁ F₂ : Graph → PassResult} (h : ∀ sg, F₁ sg = F₂ sg)
    (n : Node) : recurseNodeWith F₁ n = recurseNodeWith F₂ n := by
  unfold recurseNodeWith
  rw [recurseGraphsWith_congr h]

theorem foldEligibleNode_congr {K₁ K₂ : KernelSem}
    (hK : ∀ n ts, (K₁ n ts).fetches = (K₂ n ts).fetches) (g' : Graph) (i : Nat)
    (n' : Node) (rm : Bool) :
    foldEligibleNode K₁ g' i n' rm = foldEligibleNode K₂ g' i n' rm := by
  unfold foldEligibleNode
  rw [hK n' g'.initializers]

theorem afterRecurse_congr {K₁ K₂ : KernelSem}
    (hK : ∀ n ts, (K₁ n ts).fetches = (K₂ n ts).fetches) (compatible : List String)
    (g : Graph) (i : Nat) (r : NodeRecResult) :
    afterRecurse compatible K₁ g i r = afterRecurse compatible K₂ g i r := by
  unfold afterRecurse
  cases r.error with
  | some e => rfl
  | none =>
      cases hs : shouldSkip compatible (g.setNode i r.node) r.node with
      | true => rfl
      | false => simpa using foldEligibleNode_congr hK (g.setNode i r.node) i r.node r.modified

theorem processNodeWith_congr {F₁ F₂ : Graph → PassResult} {K₁ K₂ : KernelSem}
    (hF : ∀ sg, F₁ sg = F₂ sg)
    (hK : ∀ n ts, (K₁ n ts).fetches = (K₂ n ts).fetches) (compatible : List String)
    (g : Graph) (i : Nat) :
    processNodeWith F₁ compatible K₁ g i = processNodeWith F₂ compatible K₂ g i := by
  cases hn : g.getNode i with
  | none =>
      rw [@processNodeWith_none F₁ compatible K₁ g i hn,
        @processNodeWith_none F₂ compatible K₂ g i hn]
  | some n =>
      rw [@processNodeWith_some F₁ compatible K₁ g i n hn,
        @processNodeWith_some F₂ compatible K₂ g i n hn,
        recurseNodeWith_congr hF]
      exact afterRecurse_congr hK compatible g i _

theorem applyLoopWith_congr {F₁ F₂ : Graph → PassResult} {K₁ K₂ : KernelSem}
    (hF : ∀ sg, F₁ sg = F₂ sg)
    (hK : ∀ n ts, (K₁ n ts).fetches = (K₂ n ts).fetches) (compatible : List String) :
    ∀ (order : List Nat) (g : Graph) (m : Bool),
      applyLoopWith F₁ compatible K₁ order g m = applyLoopWith F₂ compatible K₂ order g m
  | [], g, m => rfl
  | i :: rest, g, m => by
      unfold applyLoopWith
      rw [processNodeWith_congr hF hK compatible g i,
        applyLoopWith_congr hF hK compatible rest
          (processNodeWith F₂ compatible K₂ g i).graph
          (m || (processNodeWith F₂ compatible K₂ g i).modified)]

theorem applyImplF_congr {K₁ K₂ : KernelSem}
    (hK : ∀ n ts, (K₁ n ts).fetches = (K₂ n ts).fetches) (compatible : List String) :
    ∀ (fuel : Nat) (g : Graph),
      applyImplF fuel compatible K₁ g = applyImplF fuel compatible K₂ g
  | 0, g => rfl
  | fuel + 1, g => by
      rw [applyImplF_succ, applyImplF_succ]
      exact applyLoopWith_congr (fun sg => applyImplF_congr hK compatible fuel sg) hK
        compatible (List.range g.nodes.length) g false

/-- C9: the Status returned by the kernel's Compute call is discarded.  First,
the pass's entire behavior depends only on the fetched values: two kernel
semantics with identical fetches but arbitrarily different Compute statuses
yield identical results.  Second, for an eligible node whose kernel reports a
failing status but leaves well-formed fetches in the frame, the pass still
fetches the outputs, adds them as initializers, removes the node, sets
modified, and returns success. -/
theorem C9_compute_status_discarded :
    (∀ K₁ K₂ : KernelSem, (∀ n ts, (K₁ n ts).fetches = (K₂ n ts).fetches) →
       ∀ (cf : ConstantFolding) (g : Graph),
         ConstantFolding.apply cf K₁ g = ConstantFolding.apply cf K₂ g) ∧
    (∀ (F : Graph → PassResult) (compatible : List String) (K : KernelSem) (g : Graph)
       (i : Nat) (n : Node) (st : String),
       g.getNode i = some n →
       (recurseNodeWith F n).error = none →
       shouldSkip compatible g n = false →
       (K (recurseNodeWith F n).node g.initializers).computeStatus = some st →
       (K (recurseNodeWith F n).node g.initializers).fetches.length = n.outputDefs.length →
       (∀ v ∈ (K (recurseNodeWith F n).node g.initializers).fetches,
         OrtValue.isTensor v = true) →
       (processNodeWith F compatible K g i).error = none ∧
       (processNodeWith F compatible K g i).modified = true ∧
       (processNodeWith F compatible K g i).graph.getNode i = none ∧
       ∀ a ∈ n.outputDefs,
         (processNodeWith F compatible K g i).graph.hasInitializer a.name = true) := by
  constructor
  · intro K₁ K₂ hK cf g
    exact applyImplF_congr hK cf.compatibleExecutionProviders g.ssize g
  · intro F compatible K g i n st hn hrec hs _hst hcount htensor
    refine ⟨?_, ?_, ?_, processNode_folds_adds_all hn hrec hs hcount htensor⟩
    · rw [processNode_folds hn hrec hs hcount htensor]
    · rw [processNode_folds hn hrec hs hcount htensor]
    · rw [processNode_folds hn hrec hs hcount htensor]
      exact Graph.getNode_removeNode_self _ _

/-- Witness for C9: a kernel whose Compute reports failure but fetches one
tensor still gets its node folded with a success status, and swapping that
failing status for a clean one changes nothing. -/
theorem C9_witness :
    ((∀ n ts, ((fun (_ : Node) (_ : List TensorProto) =>
        (⟨some "kernel failed", [OrtValue.tensor ⟨1, [1], [7]⟩]⟩ : KernelResult)) n ts).fetches =
      ((fun (_ : Node) (_ : List TensorProto) =>
        (⟨none, [OrtValue.tensor ⟨1, [1], [7]⟩]⟩ : KernelResult)) n ts).fetches) ∧
     ConstantFolding.apply ⟨[], []⟩
        (fun _ _ => ⟨some "kernel failed", [OrtValue.tensor ⟨1, [1], [7]⟩]⟩)
        (Graph.mk [some (Node.mk "Add" "" ["a"] [⟨"y", 1⟩] [])] [⟨"a", [1], 1, [0]⟩] []) =
      ConstantFolding.apply ⟨[], []⟩
        (fun _ _ => ⟨none, [OrtValue.tensor ⟨1, [1], [7]⟩]⟩)
        (Graph.mk [some (Node.mk "Add" "" ["a"] [⟨"y", 1⟩] [])] [⟨"a", [1], 1, [0]⟩] [])) ∧
    ((processNodeWith (fun g => ⟨g, false, none⟩) []
        (fun _ _ => ⟨some "kernel failed", [OrtValue.tensor ⟨1, [1], [7]⟩]⟩)
        (Graph.mk [some (Node.mk "Add" "" ["a"] [⟨"y", 1⟩] [])] [⟨"a", [1], 1, [0]⟩] [])
        0).error = none ∧
     (processNodeWith (fun g => ⟨g, false, none⟩) []
        (fun _ _ => ⟨some "kernel failed", [OrtValue.tensor ⟨1, [1], [7]⟩]⟩)
        (Graph.mk [some (Node.mk "Add" "" ["a"] [⟨"y", 1⟩] [])] [⟨"a", [1], 1, [0]⟩] [])
        0).modified = true) :=
  ⟨⟨fun _ _ => rfl,
    C9_compute_status_discarded.1
      (fun _ _ => ⟨some "kernel failed", [OrtValue.tensor ⟨1, [1], [7]⟩]⟩)
      (fun _ _ => ⟨none, [OrtValue.tensor ⟨1, [1], [7]⟩]⟩) (fun _ _ => rfl) ⟨[], []⟩
      (Graph.mk [some (Node.mk "Add" "" ["a"] [⟨"y", 1⟩] [])] [⟨"a", [1], 1, [0]⟩] [])⟩,
   ⟨(C9_compute_status_discarded.2 (fun g => ⟨g, false, none⟩) []
      (fun _ _ => ⟨some "kernel failed", [OrtValue.tensor ⟨1, [1], [7]⟩]⟩)
      (Graph.mk [some (Node.mk "Add" "" ["a"] [⟨"y", 1⟩] [])] [⟨"a", [1], 1, [0]⟩] []) 0
      (Node.mk "Add" "" ["a"] [⟨"y", 1⟩] []) "kernel failed" rfl rfl (by decide) rfl
      (by decide) (by decide)).1,
    (C9_compute_status_discarded.2 (fun g => ⟨g, false, none⟩) []
      (fun _ _ => ⟨some "kernel failed", [OrtValue.tensor ⟨1, [1], [7]⟩]⟩)
      (Graph.mk [some (Node.mk "Add" "" ["a"] [⟨"y", 1⟩] [])] [⟨"a", [1], 1, [0]⟩] []) 0
      (Node.mk "Add" "" ["a"] [⟨"y", 1⟩] []) "kernel failed" rfl rfl (by decide) rfl
      (by decide) (by decide)).2.1⟩⟩

theorem TopoRec.topo {g : Graph} (h : TopoRec g) : Topo g := by
  cases h with
  | intro g ht _ => exact ht

theorem TopoRec.subTopoRec {g : Graph} {i : Nat} {n : Node} {sg : Graph} (h : TopoRec g)
    (hn : g.getNode i = some n) (hsg : sg ∈ n.subgraphs) : TopoRec sg := by
  cases h with
  | intro g _ hs => exact hs i n sg hn hsg

theorem Processed.skip {compatible : List String} {g : Graph} {i : Nat} {n : Node}
    (h : Processed compatible g) (hn : g.getNode i = some n) :
    shouldSkip compatible g n = true := by
  cases h with
  | intro g hs _ => exact hs i n hn

theorem Processed.subProcessed {compatible : List String} {g : Graph} {i : Nat} {n : Node} {sg : Graph}
    (h : Processed compatible g) (hn : g.getNode i = some n) (hsg : sg ∈ n.subgraphs) :
    Processed compatible sg := by
  cases h with
  | intro g _ hs => exact hs i n sg hn hsg

theorem stableLoop (compatible : List String) (K : KernelSem) (F : Graph → PassResult)
    (g : Graph)
    (hF : ∀ i n sg, g.getNode i = some n → sg ∈ n.subgraphs → F sg = ⟨sg, false, none⟩)
    (hskip : ∀ i n, g.getNode i = some n → shouldSkip compatible g n = true) :
    ∀ (order : List Nat) (acc : Bool),
      applyLoopWith F compatible K order g acc = ⟨g, acc, none⟩
  | [], acc => rfl
  | i :: rest, acc => by
      cases hn : g.getNode i with
      | none =>
          have hp : processNodeWith F compatible K g i = ⟨g, false, none⟩ :=
            processNodeWith_none hn
          rw [applyLoop_cons_ok (by rw [hp]; rfl), hp]
          simpa using stableLoop compatible K F g hF hskip rest acc
      | some n =>
          have hrec : recurseNodeWith F n = ⟨n, false, none⟩ :=
            recurseNodeWith_stable (fun sg hsg => hF i n sg hn hsg)
          have hp : processNodeWith F compatible K g i = ⟨g, false, none⟩ := by
            rw [processNode_skips hn (by rw [hrec]) (hskip i n hn), hrec]
            simp [Graph.setNode_same hn]
          rw [applyLoop_cons_ok (by rw [hp]; rfl), hp]
          simpa using stableLoop compatible K F g hF hskip rest acc

/-- A graph on which every node fails the skip check (recursively) is a fixed
point of the pass: the run is a no-op reporting `modified = false`. -/
theorem applyImplF_processed (compatible : List String) (K : KernelSem) :
    ∀ (fuel : Nat) (g : Graph), Processed compatible g → g.ssize ≤ fuel →
      applyImplF fuel compatible K g = ⟨g, false, none⟩ := by
  intro fuel
  induction fuel using Nat.strong_induction_on with
  | _ fuel IH =>
      intro g hproc hsz
      cases fuel with
      | zero => exact absurd hsz (by have := Graph.ssize_pos g; omega)
      | succ f =>
          rw [applyImplF_succ]
          exact stableLoop compatible K _ g
            (fun i n sg hn hsg =>
              IH f (Nat.lt_succ_self f) sg (Processed.subProcessed hproc hn hsg)
                (by have := ssize_subgraph_lt hn hsg; omega))
            (fun i n hn => Processed.skip hproc hn)
            (List.range g.nodes.length) false

theorem foldEligibleNode_materialize_err {K : KernelSem} {g' : Graph} {i : Nat} {n' : Node}
    {rm : Bool} {e : FoldError}
    (hc : (K n' g'.initializers).fetches.length = n'.outputDefs.length)
    (hmo : (materializeOutputs g' (n'.outputDefs.zip (K n' g'.initializers).fetches)).2 =
      some e) :
    foldEligibleNode K g' i n' rm =
      ⟨(materializeOutputs g' (n'.outputDefs.zip (K n' g'.initializers).fetches)).1,
       rm, some e⟩ := by
  unfold foldEligibleNode
  rw [if_pos hc]
  cases hm : materializeOutputs g' (n'.outputDefs.zip (K n' g'.initializers).fetches) with
  | mk g'' e' =>
      rw [hm] at hmo
      simp only at hmo
      subst hmo
      simp [foldOutcome, hm]

theorem processedLoop (compatible : List String) (K : KernelSem) (fuel : Nat)
    (IH : ∀ (g' : Graph) (res : PassResult), TopoRec g' →
      applyImplF fuel compatible K g' = res → res.error = none →
      Processed compatible res.graph)
    (g₀ : Graph) (htopo : TopoRec g₀) :
    ∀ (cnt s : Nat) (h : Graph) (acc : Bool) (res : PassResult),
      s + cnt = g₀.nodes.length →
      h.nodes.length = g₀.nodes.length →
      h.graphOutputs = g₀.graphOutputs →
      (∀ j, s ≤ j → h.getNode j = g₀.getNode j) →
      (∀ i n, i < s → h.getNode i = some n →
        (stableSkip compatible g₀.graphOutputs n = true ∨
          ∃ x ∈ n.inputDefs, h.hasInitializer x = false ∧
            ∀ j m, g₀.getNode j = some m → x ∈ m.outputNames → j < s) ∧
        ∀ sg ∈ n.subgraphs, Processed compatible sg) →
      applyLoopWith (applyImplF fuel compatible K) compatible K (List.range' s cnt) h acc =
        res →
      res.error = none → Processed compatible res.graph
  | 0, s, h, acc, res, hsN, hlen, hgo, hso, hinv, hloop, herr => by
      rw [show List.range' s 0 = [] from rfl] at hloop
      subst hloop
      refine Processed.intro h ?_ ?_
      · intro i n hn
        by_cases his : i < s
        · rcases hinv i n his hn with ⟨hcond, _⟩
          rw [shouldSkip_eq, hgo]
          rcases hcond with hst | ⟨x, hx, hhi, _⟩
          · rw [hst]
            rfl
          · rw [(allConst_eq_false_iff h n).mpr ⟨x, hx, hhi⟩]
            simp
        · exfalso
          rw [Graph.getNode_eq_none h (by omega)] at hn
          exact Option.noConfusion hn
      · intro i n sg hn hsg
        by_cases his : i < s
        · exact (hinv i n his hn).2 sg hsg
        · exfalso
          rw [Graph.getNode_eq_none h (by omega)] at hn
          exact Option.noConfusion hn
  | cnt + 1, s, h, acc, res, hsN, hlen, hgo, hso, hinv, hloop, herr => by
      rw [List.range'_succ] at hloop
      cases hn : h.getNode s with
      | none =>
          have hp : processNodeWith (applyImplF fuel compatible K) compatible K h s =
              ⟨h, false, none⟩ := processNodeWith_none hn
          rw [applyLoop_cons_ok (by rw [hp]; rfl), hp] at hloop
          refine processedLoop compatible K fuel IH g₀ htopo cnt (s + 1) h (acc || false) res
            (by omega) hlen hgo (fun j hj => hso j (by omega)) ?_ hloop herr
          intro i n his hni
          by_cases hislt : i < s
          · rcases hinv i n hislt hni with ⟨hcond, hsub⟩
            refine ⟨?_, hsub⟩
            rcases hcond with hst | ⟨x, hx, hhi, hpb⟩
            · exact Or.inl hst
            · exact Or.inr ⟨x, hx, hhi,
                fun j m hm hxm => by have := hpb j m hm hxm; omega⟩
          · exfalso
            have hieq : i = s := by omega
            subst hieq
            rw [hn] at hni
            exact Option.noConfusion hni
      | some n =>
          have hg0 : g₀.getNode s = some n := by
            rw [← hso s (Nat.le_refl s)]
            exact hn
          cases hre : (recurseNodeWith (applyImplF fuel compatible K) n).error with
          | some e =>
              have hp : processNodeWith (applyImplF fuel compatible K) compatible K h s =
                  ⟨h.setNode s (recurseNodeWith (applyImplF fuel compatible K) n).node,
                   (recurseNodeWith (applyImplF fuel compatible K) n).modified, some e⟩ := by
                rw [processNodeWith_some hn, afterRecurse_error_some hre]
              rw [applyLoop_cons_error (by rw [hp]; rfl)] at hloop
              subst hloop
              simp [hp] at herr
          | none =>
              cases hss : shouldSkip compatible
                  (h.setNode s (recurseNodeWith (applyImplF fuel compatible K) n).node)
                  (recurseNodeWith (applyImplF fuel compatible K) n).node with
              | true =>
                  have hp : processNodeWith (applyImplF fuel compatible K) compatible K h s =
                      ⟨h.setNode s (recurseNodeWith (applyImplF fuel compatible K) n).node,
                       (recurseNodeWith (applyImplF fuel compatible K) n).modified, none⟩ := by
                    rw [processNodeWith_some hn, afterRecurse_skip hre hss]
                  rw [applyLoop_cons_ok (by rw [hp]; rfl), hp] at hloop
                  refine processedLoop compatible K fuel IH g₀ htopo cnt (s + 1)
                    (h.setNode s (recurseNodeWith (applyImplF fuel compatible K) n).node)
                    (acc || (recurseNodeWith (applyImplF fuel compatible K) n).modified) res
                    (by omega) (by simp [hlen]) (by simpa using hgo) ?_ ?_ hloop herr
                  · intro j hj
                    rw [Graph.getNode_setNode_ne h _ (by omega : j ≠ s)]
                    exact hso j (by omega)
                  · intro i m his hmi
                    by_cases hislt : i < s
                    · rw [Graph.getNode_setNode_ne h _ (by omega : i ≠ s)] at hmi
                      rcases hinv i m hislt hmi with ⟨hcond, hsub⟩
                      refine ⟨?_, hsub⟩
                      rcases hcond with hst | ⟨x, hx, hhi, hpb⟩
                      · exact Or.inl hst
                      · exact Or.inr ⟨x, hx, by simpa using hhi,
                          fun j m' hm' hxm => by have := hpb j m' hm' hxm; omega⟩
                    · have hieq : i = s := by omega
                      subst hieq
                      rw [Graph.getNode_setNode_self _ hn] at hmi
                      injection hmi with hmi
                      subst hmi
                      constructor
                      · rw [shouldSkip_eq] at hss
                        rcases Bool.or_eq_true_iff.mp hss with hst | hac
                        · left
                          rw [Graph.graphOutputs_setNode, hgo] at hst
                          exact hst
                        · right
                          have hac' : allNodeInputsAreConstant
                              (h.setNode i (recurseNodeWith (applyImplF fuel compatible K) n).node)
                              (recurseNodeWith (applyImplF fuel compatible K) n).node = false := by
                            simpa using hac
                          rcases (allConst_eq_false_iff _ _).mp hac' with ⟨x, hx, hhix⟩
                          refine ⟨x, by simpa using hx, by simpa using hhix, ?_⟩
                          intro j m' hm' hxm
                          have := htopo.topo j i m' n hm' hg0 ⟨x, by simpa using hx, hxm⟩
                          omega
                      · intro sg hsg
                        rw [recurseNodeWith_node_subgraphs] at hsg
                        have hre' : (recurseGraphsWith (applyImplF fuel compatible K)
                            n.subgraphs).2.2 = none := by
                          simpa using hre
                        have htup : recurseGraphsWith (applyImplF fuel compatible K) n.subgraphs =
                            ((recurseGraphsWith (applyImplF fuel compatible K) n.subgraphs).1,
                             (recurseGraphsWith (applyImplF fuel compatible K) n.subgraphs).2.1,
                             none) := by
                          rw [← hre']
                        rcases recurseGraphsWith_success_mem htup sg hsg with ⟨sg₀, hsg₀, m', hF⟩
                        exact IH sg₀ ⟨sg, m', none⟩ (htopo.subTopoRec hg0 hsg₀) hF rfl
              | false =>
                  by_cases hfc : (K (recurseNodeWith (applyImplF fuel compatible K) n).node
                      (h.setNode s (recurseNodeWith (applyImplF fuel compatible K) n).node).initializers).fetches.length =
                      (recurseNodeWith (applyImplF fuel compatible K) n).node.outputDefs.length
                  · cases hmo : (materializeOutputs
                        (h.setNode s (recurseNodeWith (applyImplF fuel compatible K) n).node)
                        ((recurseNodeWith (applyImplF fuel compatible K) n).node.outputDefs.zip
                          (K (recurseNodeWith (applyImplF fuel compatible K) n).node
                            (h.setNode s (recurseNodeWith (applyImplF fuel compatible K) n).node).initializers).fetches)).2 with
                    | some e =>
                        have hp : processNodeWith (applyImplF fuel compatible K) compatible K h s =
                            ⟨(materializeOutputs
                                (h.setNode s (recurseNodeWith (applyImplF fuel compatible K) n).node)
                                ((recurseNodeWith (applyImplF fuel compatible K) n).node.outputDefs.zip
                                  (K (recurseNodeWith (applyImplF fuel compatible K) n).node
                                    (h.setNode s (recurseNodeWith (applyImplF fuel compatible K) n).node).initializers).fetches)).1,
                             (recurseNodeWith (applyImplF fuel compatible K) n).modified, some e⟩ := by
                          rw [processNodeWith_some hn, afterRecurse_eligible hre hss,
                            foldEligibleNode_materialize_err hfc hmo]
                        rw [applyLoop_cons_error (by rw [hp]; rfl)] at hloop
                        subst hloop
                        simp [hp] at herr
                    | none =>
                        have hp : processNodeWith (applyImplF fuel compatible K) compatible K h s =
                            ⟨(materializeOutputs
                                (h.setNode s (recurseNodeWith (applyImplF fuel compatible K) n).node)
                                ((recurseNodeWith (applyImplF fuel compatible K) n).node.outputDefs.zip
                                  (K (recurseNodeWith (applyImplF fuel compatible K) n).node
                                    (h.setNode s (recurseNodeWith (applyImplF fuel compatible K) n).node).initializers).fetches)).1.removeNode s,
                             true, none⟩ := by
                          rw [processNodeWith_some hn, afterRecurse_eligible hre hss,
                            foldEligibleNode_success hfc hmo]
                        rw [applyLoop_cons_ok (by rw [hp]; rfl), hp] at hloop
                        refine processedLoop compatible K fuel IH g₀ htopo cnt (s + 1) _ _ res
                          (by omega) ?_ ?_ ?_ ?_ hloop herr
                        · show ((materializeOutputs _ _).1.removeNode s).nodes.length =
                            g₀.nodes.length
                          rw [Graph.nodes_removeNode, List.length_set, materializeOutputs_nodes]
                          simp [hlen]
                        · show ((materializeOutputs _ _).1.removeNode s).graphOutputs =
                            g₀.graphOutputs
                          rw [Graph.graphOutputs_removeNode, materializeOutputs_graphOutputs]
                          simpa using hgo
                        · intro j hj
                          rw [Graph.getNode_removeNode_ne _ (by omega : j ≠ s),
                            Graph.getNode_eq_of_nodes (materializeOutputs_nodes _ _) j,
                            Graph.getNode_setNode_ne h _ (by omega : j ≠ s)]
                          exact hso j (by omega)
                        · intro i m his hmi
                          by_cases hislt : i < s
                          · rw [Graph.getNode_removeNode_ne _ (by omega : i ≠ s),
                              Graph.getNode_eq_of_nodes (materializeOutputs_nodes _ _) i,
                              Graph.getNode_setNode_ne h _ (by omega : i ≠ s)] at hmi
                            rcases hinv i m hislt hmi with ⟨hcond, hsub⟩
                            refine ⟨?_, hsub⟩
                            rcases hcond with hst | ⟨x, hx, hhi, hpb⟩
                            · exact Or.inl hst
                            · refine Or.inr ⟨x, hx, ?_,
                                fun j m' hm' hxm => by have := hpb j m' hm' hxm; omega⟩
                              rw [Graph.hasInitializer_removeNode]
                              cases hxi : (materializeOutputs
                                  (h.setNode s (recurseNodeWith (applyImplF fuel compatible K) n).node)
                                  ((recurseNodeWith (applyImplF fuel compatible K) n).node.outputDefs.zip
                                    (K (recurseNodeWith (applyImplF fuel compatible K) n).node
                                      (h.setNode s (recurseNodeWith (applyImplF fuel compatible K) n).node).initializers).fetches)).1.hasInitializer x with
                              | false => rfl
                              | true =>
                                  exfalso
                                  rcases materializeOutputs_hasInit_of _ _ _ hxi with
                                    hcontra | ⟨p, hp', hpx⟩
                                  · rw [Graph.hasInitializer_setNode, hhi] at hcontra
                                    exact Bool.noConfusion hcontra
                                  · have hp1 : p.1 ∈ n.outputDefs := by
                                      have := (List.of_mem_zip hp').1
                                      simpa using this
                                    have hxout : x ∈ n.outputNames :=
                                      hpx ▸ List.mem_map.mpr ⟨p.1, hp1, rfl⟩
                                    have := hpb s n hg0 hxout
                                    omega
                          · exfalso
                            have hieq : i = s := by omega
                            subst hieq
                            rw [Graph.getNode_removeNode_self] at hmi
                            exact Option.noConfusion hmi
                  · have hp : processNodeWith (applyImplF fuel compatible K) compatible K h s =
                        ⟨h.setNode s (recurseNodeWith (applyImplF fuel compatible K) n).node,
                         (recurseNodeWith (applyImplF fuel compatible K) n).modified,
                         some FoldError.fetchCountMismatch⟩ := by
                      rw [processNodeWith_some hn, afterRecurse_eligible hre hss,
                        foldEligibleNode_mismatch hfc]
                    rw [applyLoop_cons_error (by rw [hp]; rfl)] at hloop
                    subst hloop
                    simp [hp] at herr

/-- A successful run of the fuel-indexed pass on a topologically sorted graph
leaves a graph on which no node is eligible any more (recursively). -/
theorem applyImplF_success_processed (compatible : List String) (K : KernelSem) :
    ∀ (fuel : Nat) (g : Graph) (res : PassResult), TopoRec g →
      applyImplF fuel compatible K g = res → res.error = none →
      Processed compatible res.graph := by
  intro fuel
  induction fuel using Nat.strong_induction_on with
  | _ fuel IH =>
      intro g res htopo happ herr
      cases fuel with
      | zero =>
          subst happ
          simp [applyImplF] at herr
      | succ f =>
          rw [applyImplF_succ, List.range_eq_range'] at happ
          exact processedLoop compatible K f
            (fun g' res' ht ha he => IH f (Nat.lt_succ_self f) g' res' ht ha he)
            g htopo g.nodes.length 0 g false res (by omega) rfl rfl
            (fun j _ => rfl) (fun i n his _ => absurd his (by omega)) happ herr

/-- C7: on a topologically sorted graph (the external order guarantee,
recursively for nested subgraphs), if the first run of the pass succeeds then
running the pass again on its output is a no-op: the second run reports
`modified = false`, succeeds, and returns a graph identical to the first
run's output. -/
theorem C7_second_run_idempotent (cf : ConstantFolding) (K : KernelSem) (g : Graph)
    (res : PassResult)
    (htopo : TopoRec g)
    (h1 : ConstantFolding.apply cf K g = res)
    (hok : res.error = none) :
    ConstantFolding.apply cf K res.graph = ⟨res.graph, false, none⟩ := by
  have hproc : Processed cf.compatibleExecutionProviders res.graph :=
    applyImplF_success_processed cf.compatibleExecutionProviders K g.ssize g res htopo h1 hok
  exact applyImplF_processed cf.compatibleExecutionProviders K res.graph.ssize res.graph
    hproc (Nat.le_refl _)

/-- Witness for C7: folding the concrete one-node "Add" graph succeeds, and a
second run on the result changes nothing and reports modified = false. -/
theorem C7_witness :
    TopoRec (Graph.mk [some (Node.mk "Add" "" ["a"] [⟨"y", 1⟩] [])] [⟨"a", [1], 1, [0]⟩] []) ∧
    ConstantFolding.apply ⟨[], []⟩ (fun _ _ => ⟨none, [OrtValue.tensor ⟨1, [1], [7]⟩]⟩)
        (Graph.mk [some (Node.mk "Add" "" ["a"] [⟨"y", 1⟩] [])] [⟨"a", [1], 1, [0]⟩] []) =
      ⟨Graph.mk [none] [⟨"a", [1], 1, [0]⟩, ⟨"y", [1], 1, [7]⟩] [], true, none⟩ ∧
    ConstantFolding.apply ⟨[], []⟩ (fun _ _ => ⟨none, [OrtValue.tensor ⟨1, [1], [7]⟩]⟩)
        (Graph.mk [none] [⟨"a", [1], 1, [0]⟩, ⟨"y", [1], 1, [7]⟩] []) =
      ⟨Graph.mk [none] [⟨"a", [1], 1, [0]⟩, ⟨"y", [1], 1, [7]⟩] [], false, none⟩ := by
  have htopo : TopoRec
      (Graph.mk [some (Node.mk "Add" "" ["a"] [⟨"y", 1⟩] [])] [⟨"a", [1], 1, [0]⟩] []) := by
    refine TopoRec.intro _ ?_ ?_
    · intro i j n m hi hj hx
      exfalso
      cases i with
      | succ k => simp [Graph.getNode] at hi
      | zero =>
          cases j with
          | succ k => simp [Graph.getNode] at hj
          | zero =>
              simp only [Graph.getNode] at hi hj
              rcases hx with ⟨x, hxm, hxn⟩
              injection hi with hi
              injection hj with hj
              subst hi
              subst hj
              have hxa : x = "a" := by simpa using hxm
              have hxy : x = "y" := by
                simpa [Node.outputNames] using hxn
              rw [hxa] at hxy
              exact absurd hxy (by decide)
    · intro i n sg hi hsg
      cases i with
      | succ k => simp [Graph.getNode] at hi
      | zero =>
          simp only [Graph.getNode] at hi
          injection hi with hi
          subst hi
          simp at hsg
  refine ⟨htopo, rfl, ?_⟩
  exact C7_second_run_idempotent ⟨[], []⟩ (fun _ _ => ⟨none, [OrtValue.tensor ⟨1, [1], [7]⟩]⟩)
    (Graph.mk [some (Node.mk "Add" "" ["a"] [⟨"y", 1⟩] [])] [⟨"a", [1], 1, [0]⟩] [])
    ⟨Graph.mk [none] [⟨"a", [1], 1, [0]⟩, ⟨"y", [1], 1, [7]⟩] [], true, none⟩
    htopo rfl rfl

theorem shouldSkip_of_excluded {n : Node} (compatible : List String) (g : Graph)
    (hex : excludedOpTypesDefault.contains n.opType = true) :
    shouldSkip compatible g n = true := by
  unfold shouldSkip
  rw [hex]
  simp

theorem C8_loop (F : Graph → PassResult) (compatible : List String) (K : KernelSem)
    (g₀ : Graph) (i₀ : Nat) (n₀ : Node)
    (hex : excludedOpTypesDefault.contains n₀.opType = true)
    (huniq : ∀ j m, g₀.getNode j = some m → j ≠ i₀ → ∀ x ∈ m.outputNames,
      x ∉ n₀.outputNames) :
    ∀ (order : List Nat) (h : Graph) (acc : Bool),
      order.Pairwise (fun a b => a ≠ b) →
      (∀ j ∈ order, h.getNode j = g₀.getNode j) →
      (∃ n' : Node, h.getNode i₀ = some n' ∧ n'.opType = n₀.opType ∧
        n'.outputDefs = n₀.outputDefs ∧ n'.inputDefs = n₀.inputDefs ∧
        n'.execProvider = n₀.execProvider) →
      (∀ x ∈ n₀.outputNames, h.hasInitializer x = true → g₀.hasInitializer x = true) →
      (∃ n' : Node, (applyLoopWith F compatible K order h acc).graph.getNode i₀ = some n' ∧
        n'.opType = n₀.opType ∧ n'.outputDefs = n₀.outputDefs ∧
        n'.inputDefs = n₀.inputDefs ∧ n'.execProvider = n₀.execProvider) ∧
      ∀ x ∈ n₀.outputNames,
        (applyLoopWith F compatible K order h acc).graph.hasInitializer x = true →
        g₀.hasInitializer x = true
  | [], h, acc, _, _, hslot, hinit => ⟨hslot, hinit⟩
  | i :: rest, h, acc, hpw, hso, hslot, hinit => by
      have hpw' := (List.pairwise_cons.mp hpw).2
      have hne := (List.pairwise_cons.mp hpw).1
      have hso' : ∀ j ∈ rest, h.getNode j = g₀.getNode j :=
        fun j hj => hso j (List.mem_cons_of_mem _ hj)
      by_cases hii : i = i₀
      · -- visiting the excluded node itself: it is skipped (or the recursion errors);
        -- either way its slot keeps a node of the same signature
        subst hii
        rcases hslot with ⟨n', hn', ho, hod, hid, hep⟩
        cases hre : (recurseNodeWith F n').error with
        | some e =>
            have hp : processNodeWith F compatible K h i =
                ⟨h.setNode i (recurseNodeWith F n').node,
                 (recurseNodeWith F n').modified, some e⟩ := by
              rw [processNodeWith_some hn', afterRecurse_error_some hre]
            rw [applyLoop_cons_error (by rw [hp]; rfl), hp]
            refine ⟨⟨(recurseNodeWith F n').node, ?_, ?_, ?_, ?_, ?_⟩, ?_⟩
            · exact Graph.getNode_setNode_self _ hn'
            · rw [recurseNodeWith_node_opType]; exact ho
            · rw [recurseNodeWith_node_outputDefs]; exact hod
            · rw [recurseNodeWith_node_inputDefs]; exact hid
            · rw [recurseNodeWith_node_execProvider]; exact hep
            · intro x hx hhi
              exact hinit x hx hhi
        | none =>
            have hsk : shouldSkip compatible h n' = true :=
              shouldSkip_of_excluded compatible h (by rw [ho]; exact hex)
            have hp : processNodeWith F compatible K h i =
                ⟨h.setNode i (recurseNodeWith F n').node,
                 (recurseNodeWith F n').modified, none⟩ :=
              processNode_skips hn' hre hsk
            rw [applyLoop_cons_ok (by rw [hp]; rfl), hp]
            refine C8_loop F compatible K g₀ i n₀ hex huniq rest _ _ hpw' ?_ ?_ ?_
            · intro j hj
              show (h.setNode i (recurseNodeWith F n').node).getNode j = g₀.getNode j
              rw [Graph.getNode_setNode_ne h _ (fun hji => (hne j hj) hji.symm)]
              exact hso' j hj
            · refine ⟨(recurseNodeWith F n').node, ?_, ?_, ?_, ?_, ?_⟩
              · exact Graph.getNode_setNode_self _ hn'
              · rw [recurseNodeWith_node_opType]; exact ho
              · rw [recurseNodeWith_node_outputDefs]; exact hod
              · rw [recurseNodeWith_node_inputDefs]; exact hid
              · rw [recurseNodeWith_node_execProvider]; exact hep
            · intro x hx hhi
              exact hinit x hx hhi
      · -- visiting a different node: it may fold, but by output-name uniqueness it
        -- cannot add an initializer named like one of the excluded node's outputs
        have hstep : ∀ x ∈ n₀.outputNames,
            (processNodeWith F compatible K h i).graph.hasInitializer x = true →
            g₀.hasInitializer x = true := by
          intro x hx hhi
          rcases processNode_hasInit_of F compatible K h i x hhi with h' | ⟨m, hm, hxm⟩
          · exact hinit x hx h'
          · rw [hso i (List.mem_cons_self _ _)] at hm
            exact absurd hx (huniq i m hm hii x hxm)
        have hslotstep : ∃ n' : Node,
            (processNodeWith F compatible K h i).graph.getNode i₀ = some n' ∧
            n'.opType = n₀.opType ∧ n'.outputDefs = n₀.outputDefs ∧
            n'.inputDefs = n₀.inputDefs ∧ n'.execProvider = n₀.execProvider := by
          rcases hslot with ⟨n', hn', ho, hod, hid, hep⟩
          exact ⟨n', by rw [processNode_getNode_ne F compatible K h
            (fun hji => hii hji.symm)]; exact hn', ho, hod, hid, hep⟩
        cases he : (processNodeWith F compatible K h i).error.isSome with
        | true =>
            rw [applyLoop_cons_error he]
            exact ⟨hslotstep, hstep⟩
        | false =>
            rw [applyLoop_cons_ok he]
            refine C8_loop F compatible K g₀ i₀ n₀ hex huniq rest _ _ hpw' ?_ hslotstep ?_
            · intro j hj
              rw [processNode_getNode_ne F compatible K h (fun hji => (hne j hj) hji.symm)]
              exact hso' j hj
            · intro x hx hhi
              exact hstep x hx hhi

/-- C8: a node whose operator type is in the exclusion set is never removed
from the graph by the pass (its slot keeps a node with the same operator
type, provider and input/output definitions — only nested subgraphs may have
been rewritten), and the pass never adds an initializer whose name equals
any of that node's output names, assuming the graph's nodes have pairwise
disjoint output names (initializer-name/producer uniqueness, a graph
invariant). -/
theorem C8_excluded_never_folded (cf : ConstantFolding) (K : KernelSem) (g : Graph)
    (i : Nat) (n : Node)
    (hn : g.getNode i = some n)
    (hex : excludedOpTypesDefault.contains n.opType = true)
    (huniq : ∀ j m, g.getNode j = some m → j ≠ i → ∀ x ∈ m.outputNames,
      x ∉ n.outputNames) :
    (∃ n' : Node, (ConstantFolding.apply cf K g).graph.getNode i = some n' ∧
      n'.opType = n.opType ∧ n'.outputDefs = n.outputDefs ∧
      n'.inputDefs = n.inputDefs ∧ n'.execProvider = n.execProvider) ∧
    ∀ x ∈ n.outputNames,
      (ConstantFolding.apply cf K g).graph.hasInitializer x = true →
      g.hasInitializer x = true := by
  unfold ConstantFolding.apply
  obtain ⟨f, hf⟩ : ∃ f, g.ssize = f + 1 := ⟨g.ssize - 1, by have := Graph.ssize_pos g; omega⟩
  rw [hf, applyImplF_succ]
  exact C8_loop _ cf.compatibleExecutionProviders K g i n hex huniq
    (List.range g.nodes.length) g false
    ((List.pairwise_lt_range g.nodes.length).imp (fun hab => Nat.ne_of_lt hab))
    (fun j _ => rfl) ⟨n, hn, rfl, rfl, rfl, rfl⟩ (fun x _ hx => hx)

/-- Witness for C8: a concrete RandomUniform node with a constant input is
left in place and no initializer named after its output appears. -/
theorem C8_witness :
    excludedOpTypesDefault.contains
        (Node.mk "RandomUniform" "" ["a"] [⟨"r", 1⟩] []).opType = true ∧
    (∃ n' : Node, (ConstantFolding.apply ⟨[], []⟩
        (fun _ _ => ⟨none, [OrtValue.tensor ⟨1, [1], [7]⟩]⟩)
        (Graph.mk [some (Node.mk "RandomUniform" "" ["a"] [⟨"r", 1⟩] [])]
          [⟨"a", [1], 1, [0]⟩] [])).graph.getNode 0 = some n' ∧
      n'.opType = (Node.mk "RandomUniform" "" ["a"] [⟨"r", 1⟩] []).opType ∧
      n'.outputDefs = (Node.mk "RandomUniform" "" ["a"] [⟨"r", 1⟩] []).outputDefs ∧
      n'.inputDefs = (Node.mk "RandomUniform" "" ["a"] [⟨"r", 1⟩] []).inputDefs ∧
      n'.execProvider = (Node.mk "RandomUniform" "" ["a"] [⟨"r", 1⟩] []).execProvider) ∧
    ∀ x ∈ (Node.mk "RandomUniform" "" ["a"] [⟨"r", 1⟩] []).outputNames,
      (ConstantFolding.apply ⟨[], []⟩
        (fun _ _ => ⟨none, [OrtValue.tensor ⟨1, [1], [7]⟩]⟩)
        (Graph.mk [some (Node.mk "RandomUniform" "" ["a"] [⟨"r", 1⟩] [])]
          [⟨"a", [1], 1, [0]⟩] [])).graph.hasInitializer x = true →
      (Graph.mk [some (Node.mk "RandomUniform" "" ["a"] [⟨"r", 1⟩] [])]
        [⟨"a", [1], 1, [0]⟩] []).hasInitializer x = true :=
  ⟨by decide,
   (C8_excluded_never_folded ⟨[], []⟩
      (fun _ _ => ⟨none, [OrtValue.tensor ⟨1, [1], [7]⟩]⟩)
      (Graph.mk [some (Node.mk "RandomUniform" "" ["a"] [⟨"r", 1⟩] [])]
        [⟨"a", [1], 1, [0]⟩] []) 0
      (Node.mk "RandomUniform" "" ["a"] [⟨"r", 1⟩] []) rfl (by decide)
      (by
        intro j m hj hne x hx
        cases j with
        | zero => exact absurd rfl hne
        | succ k => simp [Graph.getNode] at hj)).1,
   (C8_excluded_never_folded ⟨[], []⟩
      (fun _ _ => ⟨none, [OrtValue.tensor ⟨1, [1], [7]⟩]⟩)
      (Graph.mk [some (Node.mk "RandomUniform" "" ["a"] [⟨"r", 1⟩] [])]
        [⟨"a", [1], 1, [0]⟩] []) 0
      (Node.mk "RandomUniform" "" ["a"] [⟨"r", 1⟩] []) rfl (by decide)
      (by
        intro j m hj hne x hx
        cases j with
        | zero => exact absurd rfl hne
        | succ k => simp [Graph.getNode] at hj)).2⟩

/-- C2 counterexample: the rewrite of a folded node is not atomic.  A node
with two outputs whose kernel computes a tensor for the first and a
non-tensor for the second raises the internal error only at the second
output; by then the initializer for the first output has already been added
to the graph, so the pass errors with a mutated graph (the node itself is not
removed). -/
theorem C2_counterexample :
    (ConstantFolding.apply ⟨[], []⟩
        (fun _ _ => ⟨none, [OrtValue.tensor ⟨1, [1], [7]⟩, OrtValue.other]⟩)
        (Graph.mk [some (Node.mk "Two" "" ["a"] [⟨"y0", 1⟩, ⟨"y1", 1⟩] [])]
          [⟨"a", [1], 1, [0]⟩] [])).error = some FoldError.nonTensorValue ∧
    (ConstantFolding.apply ⟨[], []⟩
        (fun _ _ => ⟨none, [OrtValue.tensor ⟨1, [1], [7]⟩, OrtValue.other]⟩)
        (Graph.mk [some (Node.mk "Two" "" ["a"] [⟨"y0", 1⟩, ⟨"y1", 1⟩] [])]
          [⟨"a", [1], 1, [0]⟩] [])).graph.hasInitializer "y0" = true ∧
    (ConstantFolding.apply ⟨[], []⟩
        (fun _ _ => ⟨none, [OrtValue.tensor ⟨1, [1], [7]⟩, OrtValue.other]⟩)
        (Graph.mk [some (Node.mk "Two" "" ["a"] [⟨"y0", 1⟩, ⟨"y1", 1⟩] [])]
          [⟨"a", [1], 1, [0]⟩] [])).graph.getNode 0 =
      some (Node.mk "Two" "" ["a"] [⟨"y0", 1⟩, ⟨"y1", 1⟩] []) :=
  ⟨rfl, rfl, rfl⟩

/-- C2 (amended): on any internal error during evaluation or materialization
the node is never removed (and its output edges never severed); the
fetch-count-mismatch error is raised before any mutation of the graph for the
node; but a non-tensor computed value at output position k is detected
per-output, so it is raised only after the initializers for the outputs
preceding position k have already been inserted.  When no error occurs, all
rewrite steps complete. -/
theorem C2_amended_atomicity (F : Graph → PassResult) (compatible : List String)
    (K : KernelSem) (g : Graph) (i : Nat) (n : Node)
    (hn : g.getNode i = some n) :
    ((processNodeWith F compatible K g i).error.isSome = true →
      ∃ n' : Node, (processNodeWith F compatible K g i).graph.getNode i = some n') ∧
    ((recurseNodeWith F n).error = none →
      shouldSkip compatible g n = false →
      (K (recurseNodeWith F n).node g.initializers).fetches.length ≠ n.outputDefs.length →
      (processNodeWith F compatible K g i).graph.initializers = g.initializers) ∧
    (∀ (ps₁ ps₂ : List (NodeArg × OrtValue)) (a : NodeArg),
      (recurseNodeWith F n).error = none →
      shouldSkip compatible g n = false →
      (K (recurseNodeWith F n).node g.initializers).fetches.length = n.outputDefs.length →
      n.outputDefs.zip (K (recurseNodeWith F n).node g.initializers).fetches =
        ps₁ ++ (a, OrtValue.other) :: ps₂ →
      (∀ p ∈ ps₁, OrtValue.isTensor (p : NodeArg × OrtValue).2 = true) →
      processNodeWith F compatible K g i =
        ⟨(materializeOutputs (g.setNode i (recurseNodeWith F n).node) ps₁).1,
         (recurseNodeWith F n).modified, some FoldError.nonTensorValue⟩) := by
  refine ⟨?_, ?_, ?_⟩
  · intro he
    rw [processNodeWith_some hn] at he ⊢
    cases hre : (recurseNodeWith F n).error with
    | some e =>
        rw [afterRecurse_error_some hre]
        exact ⟨_, Graph.getNode_setNode_self _ hn⟩
    | none =>
        cases hss : shouldSkip compatible (g.setNode i (recurseNodeWith F n).node)
            (recurseNodeWith F n).node with
        | true =>
            rw [afterRecurse_skip hre hss] at he
            simp at he
        | false =>
            rw [afterRecurse_eligible hre hss] at he ⊢
            rw [foldEligibleNode_error_getNode he, Graph.getNode_setNode_self _ hn]
            exact ⟨_, rfl⟩
  · intro hrec hs hmm
    rw [processNodeWith_some hn,
      afterRecurse_eligible hrec (by rw [shouldSkip_recursed]; exact hs),
      @foldEligibleNode_mismatch K (g.setNode i (recurseNodeWith F n).node) i
        (recurseNodeWith F n).node (recurseNodeWith F n).modified hmm]
    rfl
  · intro ps₁ ps₂ a hrec hs hcount hzip hts
    rw [processNodeWith_some hn,
      afterRecurse_eligible hrec (by rw [shouldSkip_recursed]; exact hs)]
    unfold foldEligibleNode
    simp only [recurseNodeWith_node_outputDefs, Graph.initializers_setNode]
    rw [if_pos hcount, hzip, materializeOutputs_split ps₁ _ a ps₂ hts]
    rfl

/-- Witness for the amended C2 at the concrete two-output node: the error
leaves the node in place, and the result equals the partially materialized
graph described by the non-tensor-at-position-one case. -/
theorem C2_witness :
    (∃ n' : Node,
      (processNodeWith (fun g => ⟨g, false, none⟩) []
        (fun _ _ => ⟨none, [OrtValue.tensor ⟨1, [1], [7]⟩, OrtValue.other]⟩)
        (Graph.mk [some (Node.mk "Two" "" ["a"] [⟨"y0", 1⟩, ⟨"y1", 1⟩] [])]
          [⟨"a", [1], 1, [0]⟩] []) 0).graph.getNode 0 = some n') ∧
    processNodeWith (fun g => ⟨g, false, none⟩) []
        (fun _ _ => ⟨none, [OrtValue.tensor ⟨1, [1], [7]⟩, OrtValue.other]⟩)
        (Graph.mk [some (Node.mk "Two" "" ["a"] [⟨"y0", 1⟩, ⟨"y1", 1⟩] [])]
          [⟨"a", [1], 1, [0]⟩] []) 0 =
      ⟨(materializeOutputs
          ((Graph.mk [some (Node.mk "Two" "" ["a"] [⟨"y0", 1⟩, ⟨"y1", 1⟩] [])]
              [⟨"a", [1], 1, [0]⟩] []).setNode 0
            (recurseNodeWith (fun g => ⟨g, false, none⟩)
              (Node.mk "Two" "" ["a"] [⟨"y0", 1⟩, ⟨"y1", 1⟩] [])).node)
          [(⟨"y0", 1⟩, OrtValue.tensor ⟨1, [1], [7]⟩)]).1,
       (recurseNodeWith (fun g => ⟨g, false, none⟩)
         (Node.mk "Two" "" ["a"] [⟨"y0", 1⟩, ⟨"y1", 1⟩] [])).modified,
       some FoldError.nonTensorValue⟩ :=
  ⟨(C2_amended_atomicity (fun g => ⟨g, false, none⟩) []
      (fun _ _ => ⟨none, [OrtValue.tensor ⟨1, [1], [7]⟩, OrtValue.other]⟩)
      (Graph.mk [some (Node.mk "Two" "" ["a"] [⟨"y0", 1⟩, ⟨"y1", 1⟩] [])]
        [⟨"a", [1], 1, [0]⟩] []) 0
      (Node.mk "Two" "" ["a"] [⟨"y0", 1⟩, ⟨"y1", 1⟩] []) rfl).1 (by decide),
   (C2_amended_atomicity (fun g => ⟨g, false, none⟩) []
      (fun _ _ => ⟨none, [OrtValue.tensor ⟨1, [1], [7]⟩, OrtValue.other]⟩)
      (Graph.mk [some (Node.mk "Two" "" ["a"] [⟨"y0", 1⟩, ⟨"y1", 1⟩] [])]
        [⟨"a", [1], 1, [0]⟩] []) 0
      (Node.mk "Two" "" ["a"] [⟨"y0", 1⟩, ⟨"y1", 1⟩] []) rfl).2.2
     [(⟨"y0", 1⟩, OrtValue.tensor ⟨1, [1], [7]⟩)] [] ⟨"y1", 1⟩ rfl (by decide) (by decide)
     (by decide) (by decide)⟩

/-- C4: for every visited node the pass first recurses into its nested
subgraphs, unconditionally, before the eligibility check: an error from that
recursion propagates immediately, aborting the rest of the pass over the
current graph (the remaining indices are not processed and keep their
slots), and for a node that then fails the eligibility check (e.g. an
excluded one) the recursed subgraphs are still written back into its slot. -/
theorem C4_recursion_before_eligibility (fuel : Nat) (compatible : List String)
    (K : KernelSem) (g : Graph) (i : Nat) (rest : List Nat) (acc : Bool) (n : Node)
    (hn : g.getNode i = some n) :
    (∀ e : FoldError,
      (recurseNodeWith (applyImplF fuel compatible K) n).error = some e →
      applyLoopWith (applyImplF fuel compatible K) compatible K (i :: rest) g acc =
        ⟨g.setNode i (recurseNodeWith (applyImplF fuel compatible K) n).node,
         acc || (recurseNodeWith (applyImplF fuel compatible K) n).modified, some e⟩ ∧
      ∀ j : Nat, j ≠ i →
        (applyLoopWith (applyImplF fuel compatible K) compatible K
          (i :: rest) g acc).graph.getNode j = g.getNode j) ∧
    ((recurseNodeWith (applyImplF fuel compatible K) n).error = none →
      shouldSkip compatible g n = true →
      processNodeWith (applyImplF fuel compatible K) compatible K g i =
        ⟨g.setNode i (recurseNodeWith (applyImplF fuel compatible K) n).node,
         (recurseNodeWith (applyImplF fuel compatible K) n).modified, none⟩) := by
  constructor
  · intro e he
    have hp : processNodeWith (applyImplF fuel compatible K) compatible K g i =
        ⟨g.setNode i (recurseNodeWith (applyImplF fuel compatible K) n).node,
         (recurseNodeWith (applyImplF fuel compatible K) n).modified, some e⟩ := by
      rw [processNodeWith_some hn, afterRecurse_error_some he]
    have hloop : applyLoopWith (applyImplF fuel compatible K) compatible K (i :: rest) g acc =
        ⟨g.setNode i (recurseNodeWith (applyImplF fuel compatible K) n).node,
         acc || (recurseNodeWith (applyImplF fuel compatible K) n).modified, some e⟩ := by
      rw [applyLoop_cons_error (by rw [hp]; rfl), hp]
    refine ⟨hloop, fun j hj => ?_⟩
    rw [hloop]
    exact Graph.getNode_setNode_ne g _ hj
  · intro hrec hs
    exact processNode_skips hn hrec hs

/-- Witness for C4: a concrete "If" node owning a subgraph whose only node is
eligible but whose kernel fetches no values — the recursion fails with the
inner fetch-count error, and the outer loop over [0, 1] aborts immediately
with that error. -/
theorem C4_witness :
    (recurseNodeWith (applyImplF 3 [] (fun _ _ => ⟨none, []⟩))
        (Node.mk "If" "" [] [⟨"o", 1⟩]
          [Graph.mk [some (Node.mk "Add" "" ["b"] [⟨"z", 1⟩] [])]
            [⟨"b", [1], 1, [0]⟩] []])).error = some FoldError.fetchCountMismatch ∧
    applyLoopWith (applyImplF 3 [] (fun _ _ => ⟨none, []⟩)) [] (fun _ _ => ⟨none, []⟩)
        [0, 1]
        (Graph.mk
          [some (Node.mk "If" "" [] [⟨"o", 1⟩]
            [Graph.mk [some (Node.mk "Add" "" ["b"] [⟨"z", 1⟩] [])]
              [⟨"b", [1], 1, [0]⟩] []])] [] [])
        false =
      ⟨(Graph.mk
          [some (Node.mk "If" "" [] [⟨"o", 1⟩]
            [Graph.mk [some (Node.mk "Add" "" ["b"] [⟨"z", 1⟩] [])]
              [⟨"b", [1], 1, [0]⟩] []])] [] []).setNode 0
          (recurseNodeWith (applyImplF 3 [] (fun _ _ => ⟨none, []⟩))
            (Node.mk "If" "" [] [⟨"o", 1⟩]
              [Graph.mk [some (Node.mk "Add" "" ["b"] [⟨"z", 1⟩] [])]
                [⟨"b", [1], 1, [0]⟩] []])).node,
       false || (recurseNodeWith (applyImplF 3 [] (fun _ _ => ⟨none, []⟩))
         (Node.mk "If" "" [] [⟨"o", 1⟩]
           [Graph.mk [some (Node.mk "Add" "" ["b"] [⟨"z", 1⟩] [])]
             [⟨"b", [1], 1, [0]⟩] []])).modified,
       some FoldError.fetchCountMismatch⟩ :=
  ⟨rfl,
   ((C4_recursion_before_eligibility 3 [] (fun _ _ => ⟨none, []⟩)
      (Graph.mk
        [some (Node.mk "If" "" [] [⟨"o", 1⟩]
          [Graph.mk [some (Node.mk "Add" "" ["b"] [⟨"z", 1⟩] [])]
            [⟨"b", [1], 1, [0]⟩] []])] [] [])
      0 [1] false
      (Node.mk "If" "" [] [⟨"o", 1⟩]
        [Graph.mk [some (Node.mk "Add" "" ["b"] [⟨"z", 1⟩] [])]
          [⟨"b", [1], 1, [0]⟩] []]) rfl).1
     FoldError.fetchCountMismatch rfl).1⟩

/-- Witness for the amended C3 at a concrete configuration and a concrete
RandomUniform node. -/
theorem C3_witness :
    excludedOpTypesDefault.contains (Node.mk "RandomUniform" "" [] [⟨"r", 1⟩] []).opType = true ∧
    ((ConstantFolding.mk ["CPUExecutionProvider"] ["a"]).excludedOpTypes =
      ["RandomUniform", "RandomNormal", "RandomUniformLike", "RandomNormalLike",
       "Multinomial"] ∧
     shouldSkip [] (Graph.mk [] [] []) (Node.mk "RandomUniform" "" [] [⟨"r", 1⟩] []) = true) :=
  ⟨by decide,
   C3_amended_fixed_exclusion ⟨["CPUExecutionProvider"], ["a"]⟩ [] (Graph.mk [] [] [])
     (Node.mk "RandomUniform" "" [] [⟨"r", 1⟩] []) (by decide)⟩

end CF

